import Mathlib

/-! Go-RateLimiter-Redis-Server-Api: admission control, embedded in Lean.

A shallow embedding of

* `internal/limiter/strategy.go`        (the `StorageStrategy` interface),
* `internal/limiter/limiter.go`         (`RateLimiter.Check`),
* `internal/limiter/redis_strategy.go`  (`RedisStrategy`),
* `internal/middleware/rate_limiter.go` (`RateLimiterMiddleware.Middleware`, `getClientIP`).

Conventions.

* Stateful code is written in state-passing style: every storage operation takes the
  store and returns the store it leaves behind.
* Go `(value, error)` results are `Except GoError value`; a bare `error` result is
  `Option GoError` (`none` is Go's `nil`).
* `time.Time` is an `Int` counting nanoseconds since the Unix epoch, `time.Duration` an
  `Int` counting nanoseconds.  One call of `Check` reads the clock once (`now`).
* Go `int` has 64 bits: its values are the `Int` between `-2^63` and `2^63 - 1`, and the
  result of an arithmetic operation on them is wrapped around into that range (`wrapInt`).
* The Redis server and the go-redis client are not part of the repository.  They are
  modelled by `Db` (the keyspace with lazily expiring entries) and `Client` (the keyspace,
  the outcome of the coming network round trips, and the log of what was sent).  The client
  sends a time to live in whole milliseconds or whole seconds (`formatMs`, `formatSec`), and
  the server keeps expiries on a clock that counts milliseconds (`mstime`).
* Go `float64` arithmetic, which `time.Duration.Seconds` uses, rounds the exact result of
  each operation to the nearest value with a 53-bit significand, ties to even
  (`roundFloat64`).
* `Caller`, `Pool` give the same code command by command, for calls that run concurrently.
* The gin context is reduced to what the middleware reads and writes (`Context`); the
  functions of the Go standard library that `getClientIP` calls are parameters (`GoLib`).

The sections of theorems: strings, the keyspace, the steps of the Redis backend, the paths
of `Check`, sequential runs, interleavings, the response headers, and the claims of the
specification.
-/

namespace RateLimiter

/-! ## Go values -/

/-- Go `error` values: one made by a library, or one made by `fmt.Errorf` with a `%w` verb,
which remembers the error it wraps. -/
inductive GoError where
  | mk (msg : String)
  | wrap (msg : String) (inner : GoError)
  deriving DecidableEq, Repr

/-- The method `Error()` of a Go error: its message. -/
def GoError.Error : GoError → String
  | .mk msg => msg
  | .wrap msg _ => msg

/-- Go `errors.Unwrap`. -/
def GoError.Unwrap : GoError → Option GoError
  | .mk _ => none
  | .wrap _ inner => some inner

/-- The call `fmt.Errorf(pre + "%w", err)`: the message of `err` after `pre`, wrapping `err`. -/
def Errorf (pre : String) (err : GoError) : GoError :=
  .wrap (pre ++ err.Error) err

deriving instance DecidableEq for Except

/-- Instants (`time.Time`), in nanoseconds since the Unix epoch. -/
abbrev Time := Int

/-- Time spans (`time.Duration`), in nanoseconds. -/
abbrev Duration := Int

/-- Go `time.Second`. -/
def Second : Duration := 1000000000

/-- Go `time.Millisecond`. -/
def Millisecond : Duration := 1000000

/-- The smallest value of a Go `int`, `-2^63`. -/
def minInt : Int := -9223372036854775808

/-- The largest value of a Go `int`, `2^63 - 1`. -/
def maxInt : Int := 9223372036854775807

/-- The value a Go `int` takes when the exact result of an operation on `int`s is `x`: `x`
wrapped around into the range from `minInt` to `maxInt` (two's complement, 64 bits). -/
def wrapInt (x : Int) : Int :=
  (x + 9223372036854775808) % 18446744073709551616 - 9223372036854775808

/-- The zero value of `time.Time` (January 1, year 1, 00:00 UTC), which a struct literal
that leaves `ResetTime` out carries. -/
def zeroTime : Time := -62135596800 * 1000000000

/-! ## `internal/limiter/limiter.go`, `internal/limiter/strategy.go` -/

/-- Go `limiter.LimitConfig`. -/
structure LimitConfig where
  RPS : Int
  BlockTime : Duration
  deriving DecidableEq, Repr

/-- Go `limiter.CheckResult`. -/
structure CheckResult where
  Allowed : Bool
  Remaining : Int
  ResetTime : Time
  Blocked : Bool
  deriving DecidableEq, Repr

/-- Go interface `limiter.StorageStrategy`, over a store of type `σ`.  Every method gets the
instant at which it runs and the store, and returns its result with the store afterwards. -/
structure StorageStrategy (σ : Type) where
  Get : Time → σ → String → Except GoError Int × σ
  Set : Time → σ → String → Int → Duration → Option GoError × σ
  Increment : Time → σ → String → Duration → Except GoError (Int × Bool) × σ
  IsBlocked : Time → σ → String → Except GoError Bool × σ
  Block : Time → σ → String → Duration → Option GoError × σ

/-- Go `(*RateLimiter).Check` (limiter.go, lines 31-87). -/
def Check {σ : Type} (storage : StorageStrategy σ) (now : Time) (s : σ) (key : String)
    (config : LimitConfig) : Except GoError CheckResult × σ :=
  match storage.IsBlocked now s key with
  | (.error err, s1) => (.error (Errorf "erro ao verificar bloqueio: " err), s1)
  | (.ok blocked, s1) =>
    if blocked then
      (.ok { Allowed := false, Remaining := 0, ResetTime := zeroTime, Blocked := true }, s1)
    else
      let countKey := "rate:" ++ key
      match storage.Increment now s1 countKey Second with
      | (.error err, s2) => (.error (Errorf "erro ao incrementar contador: " err), s2)
      | (.ok (count, existed), s2) =>
        let count := if !existed then 1 else count
        let resetTime := now + Second
        let remaining := wrapInt (config.RPS - count)
        let remaining := if remaining < 0 then 0 else remaining
        if count > config.RPS then
          match storage.Block now s2 key config.BlockTime with
          | (some err, s3) => (.error (Errorf "erro ao bloquear chave: " err), s3)
          | (none, s3) =>
            (.ok { Allowed := false, Remaining := 0, ResetTime := resetTime, Blocked := false }, s3)
        else
          (.ok { Allowed := true, Remaining := remaining, ResetTime := resetTime,
                 Blocked := false }, s2)

/-! ## The Redis server and the go-redis client (the environment) -/

/-- What a Redis key holds: a string that reads as an integer (in decimal digits, of any
length), or any other string. -/
inductive RVal where
  | int (n : Int)
  | str (s : String)
  deriving DecidableEq, Repr

/-- One record of the keyspace: its value and its expiry, the reading of the server's clock
(in milliseconds, see `mstime`) up to which the record lives (`none`: it never expires). -/
structure Entry where
  value : RVal
  expireAt : Option Int
  deriving DecidableEq, Repr

/-- Redis `mstime` at the instant `now`: the server reads its clock in whole milliseconds. -/
def mstime (now : Time) : Int := now / 1000000

/-- The keyspace of the Redis server.  An expired record stays in the map and is skipped
by every reader (`Db.find`), which is how Redis itself expires keys lazily. -/
abbrev Db := String → Option Entry

/-- The keyspace with no record at all. -/
def Db.empty : Db := fun _ => none

/-- A record is live at `now` unless it has expired: Redis takes a record as expired when
the reading of its clock is greater than the expiry of the record (`keyIsExpired`). -/
def Entry.live (e : Entry) (now : Time) : Bool :=
  match e.expireAt with
  | none => true
  | some w => decide (mstime now ≤ w)

/-- The live record of `k` at `now`, if any. -/
def Db.find (db : Db) (now : Time) (k : String) : Option Entry :=
  match db k with
  | none => none
  | some e => if e.live now then some e else none

/-- The keyspace with the record of `k` replaced (`none` removes it). -/
def Db.put (db : Db) (k : String) (e : Option Entry) : Db :=
  fun k' => if k' = k then e else db k'

/-- Redis `GET`. -/
def Db.GET (db : Db) (now : Time) (k : String) : Option RVal :=
  (db.find now k).map Entry.value

/-- Redis `EXISTS` on one key: the number of live keys among them. -/
def Db.EXISTS (db : Db) (now : Time) (k : String) : Int :=
  if (db.find now k).isSome then 1 else 0

/-- go-redis `KeepTTL`. -/
def KeepTTL : Duration := -1

/-- go-redis `usePrecise`: whether a duration is sent in milliseconds rather than seconds. -/
def usePrecise (dur : Duration) : Bool :=
  decide (dur < Second ∨ Int.tmod dur Second ≠ 0)

/-- go-redis `formatMs`: a duration in whole milliseconds, as the client sends it (`1` for a
positive duration under a millisecond). -/
def formatMs (dur : Duration) : Int :=
  if dur > 0 ∧ dur < Millisecond then 1 else Int.tdiv dur Millisecond

/-- go-redis `formatSec`: a duration in whole seconds, as the client sends it (`1` for a
positive duration under a second). -/
def formatSec (dur : Duration) : Int :=
  if dur > 0 ∧ dur < Second then 1 else Int.tdiv dur Second

/-- The time to live, in milliseconds, that go-redis `Set` sends for a positive expiration:
`PX formatMs(expiration)` when `usePrecise`, and `EX formatSec(expiration)` otherwise. -/
def setMillis (expiration : Duration) : Int :=
  if usePrecise expiration then formatMs expiration else formatSec expiration * 1000

/-- Redis `SET` as go-redis `Set(ctx, key, value, expiration)` sends it: with a positive
expiration the record expires `setMillis expiration` milliseconds after the reading of the
server's clock, `KeepTTL` (option `KEEPTTL`) keeps the expiry of the live record, and any
other expiration (no option) leaves the record without expiry. -/
def Db.SET (db : Db) (now : Time) (k : String) (v : RVal) (expiration : Duration) : Db :=
  if expiration > 0 then
    db.put k (some { value := v, expireAt := some (mstime now + setMillis expiration) })
  else if expiration = KeepTTL then
    db.put k (some { value := v, expireAt := (db.find now k).bind Entry.expireAt })
  else db.put k (some { value := v, expireAt := none })

/-- Redis `INCR`: a missing key counts as 0 and the expiry of a live record is kept; a
value that is no integer of 64 bits is refused, and so is the increment of the largest one. -/
def Db.INCR (db : Db) (now : Time) (k : String) : Except GoError Int × Db :=
  match db.find now k with
  | none => (.ok 1, db.put k (some { value := .int 1, expireAt := none }))
  | some e =>
    match e.value with
    | .int n =>
      if n < minInt ∨ maxInt < n then
        (.error (.mk "ERR value is not an integer or out of range"), db)
      else if n = maxInt then
        (.error (.mk "ERR increment or decrement would overflow"), db)
      else (.ok (n + 1), db.put k (some { value := .int (n + 1), expireAt := e.expireAt }))
    | .str _ => (.error (.mk "ERR value is not an integer or out of range"), db)

/-- Redis `EXPIRE` as go-redis `Expire(ctx, key, expiration)` sends it, with the time in
whole seconds (`formatSec`): a live record expires that many seconds after the reading of
the server's clock (and is removed when they are not positive); a missing key is left
alone. -/
def Db.EXPIRE (db : Db) (now : Time) (k : String) (ttl : Duration) : Bool × Db :=
  match db.find now k with
  | none => (false, db)
  | some e =>
    if formatSec ttl > 0 then
      (true, db.put k (some { value := e.value,
                              expireAt := some (mstime now + formatSec ttl * 1000) }))
    else (true, db.put k none)

/-- The commands the client sends. -/
inductive Cmd where
  | GET (k : String)
  | SET (k : String) (v : RVal) (expiration : Duration)
  | INCR (k : String)
  | EXPIRE (k : String) (ttl : Duration)
  | EXISTS (k : String)
  deriving DecidableEq, Repr

/-- A `*redis.Client` together with the server behind it: the keyspace, the outcome of the
coming network round trips (`some e`: that round trip fails with `e` and nothing reaches
the server; no entry: it succeeds), and the round trips made so far, each with the
commands it carried. -/
structure Client where
  db : Db
  faults : List (Option GoError)
  sent : List (List Cmd)

/-- One network round trip carrying `batch`: it is logged, and the next outcome is used up. -/
def Client.roundTrip (c : Client) (batch : List Cmd) : Option GoError × Client :=
  (c.faults.head?.join, { c with faults := c.faults.tail, sent := c.sent ++ [batch] })

/-- Go `strconv.Atoi` on what `GET` returned. -/
def Atoi : RVal → Except GoError Int
  | .int n =>
    if minInt ≤ n ∧ n ≤ maxInt then .ok n
    else .error (.mk ("strconv.Atoi: parsing \"" ++ toString n ++ "\": value out of range"))
  | .str s => .error (.mk ("strconv.Atoi: parsing \"" ++ s ++ "\": invalid syntax"))

/-! ## `internal/limiter/redis_strategy.go` -/

/-- Go `(*RedisStrategy).Get` (redis_strategy.go, lines 22-41). -/
def RedisStrategy.Get (now : Time) (r : Client) (key : String) : Except GoError Int × Client :=
  match r.roundTrip [.GET key] with
  | (some err, r1) => (.error err, r1)
  | (none, r1) =>
    match r1.db.GET now key with
    | none => (.ok 0, r1)
    | some val =>
      match Atoi val with
      | .error err => (.error err, r1)
      | .ok count => (.ok count, r1)

/-- Go `(*RedisStrategy).Set` (redis_strategy.go, lines 43-47). -/
def RedisStrategy.Set (now : Time) (r : Client) (key : String) (tokens : Int) (ttl : Duration) :
    Option GoError × Client :=
  match r.roundTrip [.SET key (.int tokens) ttl] with
  | (some err, r1) => (some err, r1)
  | (none, r1) => (none, { r1 with db := r1.db.SET now key (.int tokens) ttl })

/-- Go `(*RedisStrategy).Increment` (redis_strategy.go, lines 49-83): `INCR` and `EXPIRE`
travel in one pipeline; `Exec` reports the first command that failed. -/
def RedisStrategy.Increment (now : Time) (r : Client) (key : String) (ttl : Duration) :
    Except GoError (Int × Bool) × Client :=
  match r.roundTrip [.INCR key, .EXPIRE key ttl] with
  | (some err, r1) => (.error (Errorf "erro no pipeline Redis: " err), r1)
  | (none, r1) =>
    let (incrCmd, db1) := r1.db.INCR now key
    let (_, db2) := db1.EXPIRE now key ttl
    let r2 := { r1 with db := db2 }
    match incrCmd with
    | .error err => (.error (Errorf "erro no pipeline Redis: " err), r2)
    | .ok newVal =>
      let existed := decide (newVal > 1)
      (.ok (newVal, existed), r2)

/-- Go `(*RedisStrategy).IsBlocked` (redis_strategy.go, lines 85-91). -/
def RedisStrategy.IsBlocked (now : Time) (r : Client) (key : String) :
    Except GoError Bool × Client :=
  let blockKey := "block:" ++ key
  match r.roundTrip [.EXISTS blockKey] with
  | (some err, r1) => (.error err, r1)
  | (none, r1) => (.ok (decide (r1.db.EXISTS now blockKey > 0)), r1)

/-- Go `(*RedisStrategy).Block` (redis_strategy.go, lines 93-105). -/
def RedisStrategy.Block (now : Time) (r : Client) (key : String) (blockTime : Duration) :
    Option GoError × Client :=
  let blockKey := "block:" ++ key
  match r.roundTrip [.SET blockKey (.str "blocked") blockTime] with
  | (some err, r1) => (some (Errorf "erro ao bloquear no Redis: " err), r1)
  | (none, r1) => (none, { r1 with db := r1.db.SET now blockKey (.str "blocked") blockTime })

/-- The `*RedisStrategy` as a `StorageStrategy` (what `NewRateLimiter(redisStrategy)` holds). -/
def RedisStrategy : StorageStrategy Client where
  Get := RedisStrategy.Get
  Set := RedisStrategy.Set
  Increment := RedisStrategy.Increment
  IsBlocked := RedisStrategy.IsBlocked
  Block := RedisStrategy.Block

/-- A client of a server with an empty keyspace and a network that does not fail. -/
def Client.fresh : Client := { db := Db.empty, faults := [], sent := [] }

/-- Sequential calls of `Check` on one key, one per instant of the list, each on the store
the previous one left: the results in order, and the final store. -/
def runChecks {σ : Type} (storage : StorageStrategy σ) (key : String) (config : LimitConfig) :
    List Time → σ → List (Except GoError CheckResult) × σ
  | [], s => ([], s)
  | t :: ts, s =>
    let r := Check storage t s key config
    let rest := runChecks storage key config ts r.2
    (r.1 :: rest.1, rest.2)

/-- Every instant of the list but the first is less than one `Second` after the one before
it: the counter record, whose expiry each increment moves one second ahead, does not expire
between two consecutive checks. -/
def withinWindow : List Time → Bool
  | t :: t' :: ts => decide (t' < t + Second) && withinWindow (t' :: ts)
  | _ => true

/-! ## Concurrent calls of `Check` on the Redis backend

The server runs one command at a time; calls of `Check` made by different goroutines take
turns command by command.  `Caller` is where one call stands between two commands, and
`Caller.step` runs it up to its next command, on a network that does not fail.  The
pipeline of `Increment` is two commands: others may run between its `INCR` and `EXPIRE`. -/

/-- Where one call of `Check` stands: before the `EXISTS` of `IsBlocked`; before the `INCR`
of `Increment`; before its `EXPIRE`, holding the reply to `INCR`; before the `SET` of
`Block`, holding the count and the reset time; or returned, with its result and the count
it received from the increment, if it made one. -/
inductive Caller where
  | start
  | counting
  | expiring (incrCmd : Except GoError Int)
  | blocking (newVal : Int) (resetTime : Time)
  | done (result : Except GoError CheckResult) (got : Option Int)
  deriving DecidableEq, Repr

/-- One turn of a call of `Check(key, config)` at instant `t`: its next command runs on the
keyspace, and the call goes on (as limiter.go and redis_strategy.go have it) up to the
command after that. -/
def Caller.step (key : String) (config : LimitConfig) (t : Time) (db : Db) :
    Caller → Caller × Db
  | .start =>
    if db.EXISTS t ("block:" ++ key) > 0 then
      (.done (.ok { Allowed := false, Remaining := 0, ResetTime := zeroTime,
                    Blocked := true }) none, db)
    else (.counting, db)
  | .counting =>
    let (incrCmd, db1) := db.INCR t ("rate:" ++ key)
    (.expiring incrCmd, db1)
  | .expiring incrCmd =>
    let (_, db2) := db.EXPIRE t ("rate:" ++ key) Second
    match incrCmd with
    | .error err =>
      (.done (.error (Errorf "erro ao incrementar contador: "
        (Errorf "erro no pipeline Redis: " err))) none, db2)
    | .ok newVal =>
      let existed := decide (newVal > 1)
      let count := if !existed then 1 else newVal
      let resetTime := t + Second
      let remaining := wrapInt (config.RPS - count)
      let remaining := if remaining < 0 then 0 else remaining
      if count > config.RPS then (.blocking newVal resetTime, db2)
      else
        (.done (.ok { Allowed := true, Remaining := remaining, ResetTime := resetTime,
                      Blocked := false }) (some newVal), db2)
  | .blocking newVal resetTime =>
    (.done (.ok { Allowed := false, Remaining := 0, ResetTime := resetTime,
                  Blocked := false }) (some newVal),
     db.SET t ("block:" ++ key) (.str "blocked") config.BlockTime)
  | .done result got => (.done result got, db)

/-- The calls in flight and the keyspace they share. -/
structure Pool where
  db : Db
  callers : List Caller

/-- The caller number `who` takes one turn at instant `t` (nothing happens when there is
no such caller). -/
def Pool.step (key : String) (config : LimitConfig) (p : Pool) (who : Nat) (t : Time) : Pool :=
  match p.callers[who]? with
  | none => p
  | some c =>
    { db := (c.step key config t p.db).2,
      callers := p.callers.set who (c.step key config t p.db).1 }

/-- An interleaving: who takes a turn, and when, in order. -/
def Pool.run (key : String) (config : LimitConfig) : List (Nat × Time) → Pool → Pool
  | [], p => p
  | (who, t) :: rest, p => Pool.run key config rest (p.step key config who t)

/-- The call has returned. -/
def Caller.isDone : Caller → Bool
  | .done _ _ => true
  | _ => false

/-- The call has returned a result with allowed=true. -/
def Caller.allowed : Caller → Bool
  | .done (.ok r) _ => r.Allowed
  | _ => false

/-- The call has returned a result with allowed=false. -/
def Caller.denied : Caller → Bool
  | .done (.ok r) _ => !r.Allowed
  | _ => false

/-- The count the call has received from `INCR`, if it has got that far. -/
def Caller.got : Caller → Option Int
  | .expiring (.ok n) => some n
  | .blocking n _ => some n
  | .done _ got => got
  | _ => none

/-- The counts the callers of the pool have received from `INCR`. -/
def Pool.gots (p : Pool) : List Int := p.callers.filterMap Caller.got

/-- The list `1, 2, ..., v`. -/
def oneTo (v : Nat) : List Int := (List.range v).map (fun (i : Nat) => (i : Int) + 1)

/-- What holds of a call wherever it stands: `INCR` did not fail; a call about to block
received a count above the limit; a call that returned without count was rejected as
blocked; a call that returned with the count `n` was allowed exactly when `n` is within the
limit, and not reported as blocked. -/
def Caller.Good (config : LimitConfig) : Caller → Prop
  | .start => True
  | .counting => True
  | .expiring incrCmd => ∃ n, incrCmd = .ok n
  | .blocking n _ => config.RPS < n
  | .done result none =>
    result = .ok { Allowed := false, Remaining := 0, ResetTime := zeroTime, Blocked := true }
  | .done result (some n) =>
    ∃ rem rt, result = .ok { Allowed := decide (n ≤ config.RPS), Remaining := rem,
                             ResetTime := rt, Blocked := false }

/-- The invariant of a run on a fresh key that ends before `tEnd`: the counts handed out
are `1, ..., v`, each once; the callers are fewer than the largest `int64`; the counter
record holds `v` and does not expire before `tEnd`; and a block record was written, or a call
rejected as blocked, only after a count above the limit was handed out. -/
structure Pool.Inv (key : String) (config : LimitConfig) (tEnd : Time) (p : Pool) : Prop where
  perm : p.gots.Perm (oneTo p.gots.length)
  small : (p.callers.length : Int) < maxInt
  counter0 : p.gots.length = 0 → p.db ("rate:" ++ key) = none
  counter : 0 < p.gots.length →
    ∃ exp, p.db ("rate:" ++ key) = some { value := .int p.gots.length, expireAt := exp }
      ∧ ∀ e, exp = some e → mstime tEnd ≤ e
  block : (p.db ("block:" ++ key) ≠ none ∨ ∃ c ∈ p.callers, ∃ r, c = .done r none) →
    config.RPS < p.gots.length
  good : ∀ c ∈ p.callers, c.Good config

/-- The turns a call needs at most to return. -/
def Caller.turnsLeft : Caller → Nat
  | .start => 4
  | .counting => 3
  | .expiring _ => 2
  | .blocking _ _ => 1
  | .done _ _ => 0

/-- One call taking its four turns in a row, all at instant `t`, with nobody in between. -/
def Caller.alone (key : String) (config : LimitConfig) (t : Time) (db : Db) : Caller × Db :=
  let s1 := Caller.step key config t db .start
  let s2 := Caller.step key config t s1.2 s1.1
  let s3 := Caller.step key config t s2.2 s2.1
  Caller.step key config t s3.2 s3.1

/-! ## `internal/config/config.go`, `internal/middleware/rate_limiter.go` -/

/-- The fields of Go `config.Config` that the middleware reads. -/
structure Config where
  RateLimitIPRPS : Int
  RateLimitIPBlockTime : Duration
  RateLimitTokenRPS : Int
  RateLimitTokenBlockTime : Duration
  deriving DecidableEq, Repr

/-- The part of `*http.Request` that the middleware reads: the header fields (name and
first value) and the address of the peer. -/
structure Request where
  Header : List (String × String)
  RemoteAddr : String
  deriving DecidableEq, Repr

/-- A value of a JSON object written with `gin.H`. -/
inductive JSONValue where
  | str (s : String)
  | num (n : Int)
  deriving DecidableEq, Repr

/-- The part of `*gin.Context` that the middleware touches: the request, the header of the
response, the status and body written so far (`none`: nothing written), whether the chain
of handlers was aborted. -/
structure Context where
  Request : Request
  respHeader : List (String × String)
  written : Option (Nat × List (String × JSONValue))
  aborted : Bool
  deriving DecidableEq, Repr

/-- Go `c.GetHeader(name)`: the value of the request header, `""` when it is absent. -/
def Context.GetHeader (c : Context) (name : String) : String :=
  match c.Request.Header.find? (fun kv => kv.1 == name) with
  | some kv => kv.2
  | none => ""

/-- Go `c.Header(name, value)`: sets the response header `name`, replacing its value. -/
def Context.Header (c : Context) (name value : String) : Context :=
  { c with respHeader := c.respHeader.filter (fun kv => kv.1 != name) ++ [(name, value)] }

/-- The value of the header `name` of the response, as `c.Writer.Header().Get(name)` reads
it (`none`: the header is not set). -/
def Context.respGet (c : Context) (name : String) : Option String :=
  (c.respHeader.find? (fun kv => kv.1 == name)).map (fun kv => kv.2)

/-- Go `c.JSON(code, obj)`: writes the status and the object as the body, and the content
type unless the response header has one. -/
def Context.JSON (c : Context) (code : Nat) (obj : List (String × JSONValue)) : Context :=
  let c1 := if c.respHeader.any (fun kv => kv.1 == "Content-Type") then c
    else c.Header "Content-Type" "application/json; charset=utf-8"
  { c1 with written := some (code, obj) }

/-- Go `c.Abort()`: the handlers still pending are not called. -/
def Context.Abort (c : Context) : Context :=
  { c with aborted := true }

/-- Go `http.StatusTooManyRequests`. -/
def StatusTooManyRequests : Nat := 429

/-- The functions of the Go standard library that `getClientIP` calls, taken as given:
`strings.Split`, `strings.TrimSpace`, `net.ParseIP(s) != nil`, and `net.SplitHostPort`
(`none`: it returned an error). -/
structure GoLib where
  Split : String → String → List String
  TrimSpace : String → String
  ParseIP : String → Bool
  SplitHostPort : String → Option (String × String)

/-- Go `time.Time.Unix`: the seconds since the epoch, rounded down. -/
def Unix (t : Time) : Int := t / 1000000000

/-- The binary digits of `n`, counted by halving it, `fuel` times at most. -/
def binaryDigitsAux : Nat → Nat → Nat
  | 0, _ => 0
  | fuel + 1, n => if n = 0 then 0 else binaryDigitsAux fuel (n / 2) + 1

/-- The number of binary digits of `n`: `0` for `0`, and `k` when `2^(k-1) ≤ n < 2^k`. -/
def binaryDigits (n : Nat) : Nat := binaryDigitsAux n n

/-- A Go `float64` that is a number and not negative: the value `mant * 2^exp`. -/
structure Float64 where
  mant : Nat
  exp : Int
  deriving DecidableEq, Repr

/-- The exponent of the leading binary digit of the positive quotient `n / d`: the `e`
with `2^e ≤ n / d < 2^(e+1)`. -/
def leadingExp (n d : Nat) : Int :=
  if d ≤ n then (binaryDigits (n / d) : Int) - 1 else -(binaryDigits ((d - 1) / n) : Int)

/-- The quotient `n / d` rounded to the nearest integer, a tie going to the even one. -/
def roundHalfEven (n d : Nat) : Nat :=
  if 2 * (n % d) < d ∨ (2 * (n % d) = d ∧ (n / d) % 2 = 0) then n / d else n / d + 1

/-- The `float64` nearest to the positive quotient `n / d` (IEEE 754, round to nearest, ties
to even): the quotient is scaled to a significand of 53 binary digits, which is rounded to an
integer.  (The exponents of `float64` reach from `-1074` to `1023`; the quotients met here
lie between `10^-9` and `10^10`.) -/
def roundFloat64 (n d : Nat) : Float64 :=
  let e := leadingExp n d
  { mant := roundHalfEven (n * 2 ^ (52 - e).toNat) (d * 2 ^ (e - 52).toNat), exp := e - 52 }

/-- Go `float64(n)` for an integer `n ≥ 0`: exact below `2^53`, rounded from there on. -/
def Float64.ofNat (n : Nat) : Float64 :=
  if n < 2 ^ 53 then { mant := n, exp := 0 } else roundFloat64 n 1

/-- Go `x / y` for two `float64` that hold the integers `x ≥ 0` and `y > 0`: the exact
quotient, rounded. -/
def Float64.divNat (x y : Nat) : Float64 :=
  if x = 0 then { mant := 0, exp := 0 } else roundFloat64 x y

/-- Go `x + y` for two `float64` that are not negative: the exact sum, rounded (adding zero
changes nothing). -/
def Float64.add (x y : Float64) : Float64 :=
  if y.mant = 0 then x
  else if x.mant = 0 then y
  else
    let e := min x.exp y.exp
    roundFloat64
      ((x.mant * 2 ^ (x.exp - e).toNat + y.mant * 2 ^ (y.exp - e).toNat) * 2 ^ e.toNat)
      (2 ^ (-e).toNat)

/-- Go `int(x)` for a `float64` that is not negative: the fraction is dropped. -/
def Float64.toInt (x : Float64) : Int :=
  if 0 ≤ x.exp then x.mant * 2 ^ x.exp.toNat else x.mant / 2 ^ (-x.exp).toNat

/-- Go `time.Duration.Seconds` for a duration of `d ≥ 0` nanoseconds:
`sec := d / Second; nsec := d % Second; return float64(sec) + float64(nsec)/1e9`. -/
def Seconds (d : Nat) : Float64 :=
  (Float64.ofNat (d / 1000000000)).add (Float64.divNat (d % 1000000000) 1000000000)

/-- Go `int(d.Seconds())`: the seconds of a duration as a `float64`, the fraction dropped.
For a negative duration Go divides toward zero and every step is the mirror image of the one
for `-d`. -/
def wholeSeconds (d : Duration) : Int :=
  if d < 0 then -(Seconds (-d).toNat).toInt else (Seconds d.toNat).toInt

/-- Go `getClientIP` (rate_limiter.go, lines 94-127). -/
def getClientIP (lib : GoLib) (c : Context) : String :=
  let xForwardedFor := c.GetHeader "X-Forwarded-For"
  let forwarded : Option String :=
    if xForwardedFor ≠ "" then
      match lib.Split xForwardedFor "," with
      | [] => none
      | first :: _ =>
        let ip := lib.TrimSpace first
        if lib.ParseIP ip then some ip else none
    else none
  match forwarded with
  | some ip => ip
  | none =>
    let xRealIP := c.GetHeader "X-Real-IP"
    if xRealIP ≠ "" ∧ lib.ParseIP xRealIP = true then xRealIP
    else
      match lib.SplitHostPort c.Request.RemoteAddr with
      | none => c.Request.RemoteAddr
      | some (ip, _) => ip

/-- Go `middleware.RateLimiterMiddleware`: the limiter (its storage) and the configuration. -/
structure RateLimiterMiddleware (σ : Type) where
  limiter : StorageStrategy σ
  config : Config

/-- What serving one request leaves: the context, the store, and the lines printed. -/
structure Served (σ : Type) where
  ctx : Context
  store : σ
  stdout : List String

/-- Steps 1 to 3 of the handler that `Middleware` returns (rate_limiter.go, lines 32-56):
the key and the limits the request is checked under. -/
def Middleware.identity {σ : Type} (rlm : RateLimiterMiddleware σ) (lib : GoLib)
    (c : Context) : String × LimitConfig :=
  let clientIP := getClientIP lib c
  let apiToken := c.GetHeader "API_KEY"
  if apiToken ≠ "" then
    ("token:" ++ apiToken,
     { RPS := rlm.config.RateLimitTokenRPS, BlockTime := rlm.config.RateLimitTokenBlockTime })
  else
    ("ip:" ++ clientIP,
     { RPS := rlm.config.RateLimitIPRPS, BlockTime := rlm.config.RateLimitIPBlockTime })

/-- Steps 4 to 7 of the handler that `Middleware` returns (rate_limiter.go, lines 59-90),
from what `Check` returned; `next` stands for the handlers that `c.Next()` runs. -/
def Middleware.respond {σ : Type} (limitConfig : LimitConfig) (next : Context → Context)
    (c : Context) (checked : Except GoError CheckResult × σ) : Served σ :=
  match checked with
  | (.error err, s) =>
    { ctx := next c, store := s, stdout := ["Erro no rate limiter: " ++ err.Error ++ "\n"] }
  | (.ok result, s) =>
    let c := c.Header "X-RateLimit-Limit" (toString limitConfig.RPS)
    let c := c.Header "X-RateLimit-Remaining" (toString result.Remaining)
    let c := c.Header "X-RateLimit-Reset" (toString (Unix result.ResetTime))
    if !result.Allowed then
      let c := c.Header "Retry-After" (toString (wholeSeconds limitConfig.BlockTime))
      let c := c.JSON StatusTooManyRequests
        [("error", .str "you have reached the maximum number of requests or actions allowed within a certain time frame"),
         ("retry_after_seconds", .num (wholeSeconds limitConfig.BlockTime))]
      { ctx := c.Abort, store := s, stdout := [] }
    else
      { ctx := next c, store := s, stdout := [] }

/-- The handler that Go `(*RateLimiterMiddleware).Middleware` returns (rate_limiter.go,
lines 28-92), serving the request of `c` at `now` on the store `s`. -/
def Middleware {σ : Type} (rlm : RateLimiterMiddleware σ) (lib : GoLib)
    (next : Context → Context) (now : Time) (s : σ) (c : Context) : Served σ :=
  let resolved := Middleware.identity rlm lib c
  Middleware.respond resolved.2 next c (Check rlm.limiter now s resolved.1 resolved.2)

/-- A stand-in for the library functions on well-formed input: fields split at the
separator, no surrounding blanks, every non-empty string an address, no port. -/
def GoLib.plain : GoLib where
  Split := fun s sep => s.splitOn sep
  TrimSpace := fun s => s
  ParseIP := fun s => s != ""
  SplitHostPort := fun _ => none

/-- A request as it reaches the first handler. -/
def Context.incoming (r : RateLimiter.Request) : Context :=
  { Request := r, respHeader := [], written := none, aborted := false }

/-! ## Theorems -/

section Strings

theorem rate_ne_block (a b : String) : "rate:" ++ a ≠ "block:" ++ b := by
  intro h
  have h2 := congrArg String.data h
  have e1 : ("rate:" : String).data = ['r', 'a', 't', 'e', ':'] := rfl
  have e2 : ("block:" : String).data = ['b', 'l', 'o', 'c', 'k', ':'] := rfl
  simp [String.data_append, e1, e2] at h2

theorem block_ne_rate (a b : String) : "block:" ++ a ≠ "rate:" ++ b :=
  fun h => rate_ne_block b a h.symm

theorem append_left_cancel (p a b : String) (h : p ++ a = p ++ b) : a = b := by
  have h2 := congrArg String.data h
  simp [String.data_append] at h2
  exact String.ext h2

end Strings

section Keyspace

@[simp] theorem Db.put_same (db : Db) (k : String) (e : Option Entry) : db.put k e k = e := by
  simp [Db.put]

theorem Db.put_other (db : Db) (k k' : String) (e : Option Entry) (h : k' ≠ k) :
    db.put k e k' = db k' := by
  simp [Db.put, h]

@[simp] theorem Db.put_put (db : Db) (k : String) (a b : Option Entry) :
    (db.put k a).put k b = db.put k b := by
  funext k'
  by_cases h : k' = k <;> simp [Db.put, h]

theorem Db.find_put_same (db : Db) (now : Time) (k : String) (e : Entry) (h : e.live now = true) :
    (db.put k (some e)).find now k = some e := by
  simp [Db.find, h]

theorem Db.find_put_other (db : Db) (now : Time) (k k' : String) (e : Option Entry)
    (h : k' ≠ k) : (db.put k e).find now k' = db.find now k' := by
  simp [Db.find, Db.put_other _ _ _ _ h]

theorem Db.find_none_of_absent (db : Db) (now : Time) (k : String) (h : db k = none) :
    db.find now k = none := by
  simp [Db.find, h]

theorem Db.find_live (db : Db) (now : Time) (k : String) (e : Entry)
    (h : db.find now k = some e) : e.live now = true := by
  unfold Db.find at h
  split at h
  · cases h
  · split at h
    · cases h; assumption
    · cases h

/-- What `SET` leaves at other keys. -/
theorem Db.SET_other (db : Db) (now : Time) (k k' : String) (v : RVal) (d : Duration)
    (h : k' ≠ k) : db.SET now k v d k' = db k' := by
  unfold Db.SET
  split
  · exact Db.put_other _ _ _ _ h
  · split <;> exact Db.put_other _ _ _ _ h

/-- A record whose expiry is `k` milliseconds after the clock reading of `t` is live at
every instant less than `k` milliseconds after `t`. -/
theorem mstime_le_of_lt (t t2 k : Int) (h : t2 < t + k * 1000000) :
    mstime t2 ≤ mstime t + k := by
  unfold mstime
  omega

theorem mstime_mono (t t2 : Int) (h : t ≤ t2) : mstime t ≤ mstime t2 := by
  unfold mstime
  omega

/-- The time to live that `Set` sends for a positive expiration: the expiration in whole
milliseconds, rounded down, and one millisecond when it is shorter than that. -/
theorem setMillis_eq (d : Int) (hd : 0 < d) : setMillis d = max 1 (d / 1000000) := by
  have h0 : (0 : Int) ≤ d := le_of_lt hd
  have e1 : Int.tdiv d 1000000 = d / 1000000 := Int.tdiv_eq_ediv h0 (by decide)
  have e2 : Int.tdiv d 1000000000 = d / 1000000000 := Int.tdiv_eq_ediv h0 (by decide)
  have e3 : Int.tmod d 1000000000 = d % 1000000000 := Int.tmod_eq_emod h0 (by decide)
  have hms : formatMs d = max 1 (d / 1000000) := by
    unfold formatMs Millisecond
    by_cases h : d < (1000000 : Int)
    · rw [if_pos ⟨hd, h⟩]
      omega
    · rw [if_neg (fun x => h x.2), e1]
      omega
  unfold setMillis usePrecise Second
  rw [e3]
  by_cases h1 : d < (1000000000 : Int)
  · rw [decide_eq_true (Or.inl h1), if_pos rfl, hms]
  · by_cases h2 : d % 1000000000 = 0
    · have hp : ¬ (d < (1000000000 : Int) ∨ d % 1000000000 ≠ 0) := by
        intro x
        rcases x with x | x
        · exact h1 x
        · exact x h2
      rw [decide_eq_false hp, if_neg (by simp)]
      unfold formatSec Second
      rw [if_neg (fun x => h1 x.2), e2]
      omega
    · rw [decide_eq_true (Or.inr h2), if_pos rfl, hms]

theorem setMillis_pos (d : Int) (hd : 0 < d) : 0 < setMillis d := by
  rw [setMillis_eq d hd]
  omega

/-- The time to live that `Set` sends never exceeds the expiration it was given, unless
that is under a millisecond. -/
theorem setMillis_le (d : Int) (hd : 1000000 ≤ d) :
    setMillis d * 1000000 ≤ d ∧ d < (setMillis d + 1) * 1000000 := by
  rw [setMillis_eq d (by omega)]
  omega

theorem formatSec_Second : formatSec Second = 1 := by decide

/-- What `EXPIRE` with `time.Second` leaves on a key that has a live record. -/
theorem Db.EXPIRE_Second (db : Db) (now : Time) (k : String) (e : Entry)
    (h : db.find now k = some e) :
    db.EXPIRE now k Second
      = (true, db.put k (some { value := e.value, expireAt := some (mstime now + 1000) })) := by
  simp [Db.EXPIRE, h, formatSec_Second]

/-- What `INCR` followed by `EXPIRE` with `time.Second` leaves on a key that has no live
record. -/
theorem Db.INCR_EXPIRE_absent (db : Db) (now : Time) (k : String)
    (h : db.find now k = none) :
    (db.INCR now k).1 = .ok 1 ∧
    ((db.INCR now k).2.EXPIRE now k Second).2
      = db.put k (some { value := .int 1, expireAt := some (mstime now + 1000) }) := by
  have h1 : db.INCR now k = (.ok 1, db.put k (some { value := .int 1, expireAt := none })) := by
    simp [Db.INCR, h]
  rw [h1]
  refine ⟨rfl, ?_⟩
  have h2 : (db.put k (some { value := .int 1, expireAt := none })).find now k
      = some { value := .int 1, expireAt := none } := Db.find_put_same _ _ _ _ rfl
  rw [Db.EXPIRE_Second _ _ _ _ h2]
  simp

/-- What `INCR` followed by `EXPIRE` with `time.Second` leaves on a key whose live record
holds the integer `n`, an `int64` below the largest. -/
theorem Db.INCR_EXPIRE_int (db : Db) (now : Time) (k : String) (n : Int) (exp : Option Int)
    (hmin : minInt ≤ n) (hmax : n < maxInt)
    (h : db.find now k = some { value := .int n, expireAt := exp }) :
    (db.INCR now k).1 = .ok (n + 1) ∧
    ((db.INCR now k).2.EXPIRE now k Second).2
      = db.put k (some { value := .int (n + 1), expireAt := some (mstime now + 1000) }) := by
  have hr : ¬ (n < minInt ∨ maxInt < n) := by
    intro hx
    rcases hx with hx | hx
    · exact absurd hmin (not_le.mpr hx)
    · exact absurd hmax (not_lt.mpr (le_of_lt hx))
  have hne : ¬ n = maxInt := ne_of_lt hmax
  have h1 : db.INCR now k
      = (.ok (n + 1), db.put k (some { value := .int (n + 1), expireAt := exp })) := by
    simp [Db.INCR, h, hr, hne]
  rw [h1]
  refine ⟨rfl, ?_⟩
  have hl := Db.find_live _ _ _ _ h
  have h2 : (db.put k (some { value := .int (n + 1), expireAt := exp })).find now k
      = some { value := .int (n + 1), expireAt := exp } := Db.find_put_same _ _ _ _ hl
  rw [Db.EXPIRE_Second _ _ _ _ h2]
  simp

/-- Whatever the expiration, `SET` replaces the record of its key and nothing else. -/
theorem Db.SET_eq_put (db : Db) (now : Time) (k : String) (v : RVal) (d : Duration) :
    ∃ exp, db.SET now k v d = db.put k (some { value := v, expireAt := exp }) := by
  unfold Db.SET
  split
  · exact ⟨_, rfl⟩
  · split <;> exact ⟨_, rfl⟩

/-- With an expiration that is not `KeepTTL`, what `SET` writes does not depend on the
record that was there. -/
theorem Db.SET_fresh (db : Db) (now : Time) (k : String) (v : RVal) (d : Duration)
    (hd : d ≠ KeepTTL) :
    db.SET now k v d
      = db.put k (some { value := v,
                         expireAt := if 0 < d then some (mstime now + setMillis d) else none }) := by
  unfold Db.SET
  by_cases hpos : d > 0
  · simp [hpos]
  · have hpos2 : ¬ 0 < d := hpos
    simp [hpos, hpos2, hd]

/-- The record `SET` writes is live at the instant of the call. -/
theorem Db.SET_live (db : Db) (now : Time) (k : String) (v : RVal) (d : Duration) :
    ((db.SET now k v d).find now k).isSome = true := by
  unfold Db.SET
  split
  · rename_i hpos
    have hlt : mstime now ≤ mstime now + setMillis d :=
      le_add_of_nonneg_right (le_of_lt (setMillis_pos d hpos))
    simp [Db.find, Entry.live, hlt]
  · split
    · cases hf : db.find now k with
      | none => simp [Db.find, Entry.live]
      | some e =>
        have hl := Db.find_live db now k e hf
        cases hx : e.expireAt with
        | none => simp [Db.find, Entry.live, hx]
        | some x =>
          simp only [Entry.live, hx, decide_eq_true_eq] at hl
          simp [Db.find, Entry.live, hx, hl]
    · simp [Db.find, Entry.live]

end Keyspace

section RedisSteps

/-- On a network that does not fail, `IsBlocked` reports whether the block key has a live
record, and changes nothing but the log. -/
theorem RedisStrategy.IsBlocked_healthy (now : Time) (c : Client) (key : String)
    (h : c.faults = []) :
    RedisStrategy.IsBlocked now c key
      = (.ok (c.db.find now ("block:" ++ key)).isSome,
         { c with sent := c.sent ++ [[.EXISTS ("block:" ++ key)]] }) := by
  cases c with
  | mk db faults sent =>
    simp only at h
    subst h
    cases hf : db.find now ("block:" ++ key) <;>
      simp [RedisStrategy.IsBlocked, Client.roundTrip, Db.EXISTS, hf]

/-- On a network that does not fail, `Increment` (with `time.Second`) of a key without
live record returns `(1, false)` and leaves the record `1`, expiring one second after the
reading of the server's clock. -/
theorem RedisStrategy.Increment_absent (now : Time) (c : Client) (k : String)
    (h : c.faults = []) (hk : c.db.find now k = none) :
    RedisStrategy.Increment now c k Second
      = (.ok (1, false),
         { c with db := c.db.put k (some { value := .int 1,
                                           expireAt := some (mstime now + 1000) }),
                  sent := c.sent ++ [[.INCR k, .EXPIRE k Second]] }) := by
  cases c with
  | mk db faults sent =>
    simp only at h hk
    subst h
    obtain ⟨h1, h2⟩ := Db.INCR_EXPIRE_absent db now k hk
    simp [RedisStrategy.Increment, Client.roundTrip, h1, h2]

/-- On a network that does not fail, `Increment` (with `time.Second`) of a key whose live
record holds the integer `n`, an `int64` below the largest, returns `n + 1` (and whether that
is above 1), and leaves the record `n + 1`, expiring one second after the reading of the
server's clock. -/
theorem RedisStrategy.Increment_int (now : Time) (c : Client) (k : String)
    (h : c.faults = []) (n : Int) (exp : Option Int)
    (hmin : minInt ≤ n) (hmax : n < maxInt)
    (hk : c.db.find now k = some { value := .int n, expireAt := exp }) :
    RedisStrategy.Increment now c k Second
      = (.ok (n + 1, decide (n + 1 > 1)),
         { c with db := c.db.put k (some { value := .int (n + 1),
                                           expireAt := some (mstime now + 1000) }),
                  sent := c.sent ++ [[.INCR k, .EXPIRE k Second]] }) := by
  cases c with
  | mk db faults sent =>
    simp only at h hk
    subst h
    obtain ⟨h1, h2⟩ := Db.INCR_EXPIRE_int db now k n exp hmin hmax hk
    simp [RedisStrategy.Increment, Client.roundTrip, h1, h2]

/-- On a network that does not fail, `Block` writes the block record and returns no error. -/
theorem RedisStrategy.Block_healthy (now : Time) (c : Client) (key : String) (d : Duration)
    (h : c.faults = []) :
    RedisStrategy.Block now c key d
      = (none,
         { c with db := c.db.SET now ("block:" ++ key) (.str "blocked") d,
                  sent := c.sent ++ [[.SET ("block:" ++ key) (.str "blocked") d]] }) := by
  cases c with
  | mk db faults sent =>
    simp only at h
    subst h
    simp [RedisStrategy.Block, Client.roundTrip]

theorem Second_pos : (0 : Int) < Second := by decide

/-- A value of a Go `int` is not changed by the wrap-around. -/
theorem wrapInt_of_range (x : Int) (h1 : minInt ≤ x) (h2 : x ≤ maxInt) : wrapInt x = x := by
  unfold minInt at h1
  unfold maxInt at h2
  unfold wrapInt
  omega

/-- Whatever the operation, its wrapped result is a value of a Go `int`, and differs from
the exact result by a multiple of `2^64`. -/
theorem wrapInt_range (x : Int) :
    minInt ≤ wrapInt x ∧ wrapInt x ≤ maxInt
      ∧ ∃ k : Int, wrapInt x = x - k * 18446744073709551616 := by
  unfold minInt maxInt wrapInt
  refine ⟨by omega, by omega, (x + 9223372036854775808) / 18446744073709551616, by omega⟩

/-- A difference of two Go `int`s that does not fit wraps around to a negative value when it
is `2^63` or more. -/
theorem wrapInt_neg_of_overflow (x : Int) (h1 : maxInt < x)
    (h2 : x ≤ maxInt - minInt) : wrapInt x < 0 := by
  unfold minInt maxInt at h2
  unfold maxInt at h1
  unfold wrapInt
  omega

theorem clamp_eq_max (r : Int) : (if r < 0 then 0 else r) = max 0 r := by
  split <;> omega

/-- Whatever the network does, `IsBlocked` leaves the keyspace as it was. -/
theorem RedisStrategy.IsBlocked_db (now : Time) (c : Client) (key : String) :
    (RedisStrategy.IsBlocked now c key).2.db = c.db := by
  simp only [RedisStrategy.IsBlocked, Client.roundTrip]
  generalize c.faults.head?.join = f
  cases f <;> rfl

/-- Whatever the network does, `IsBlocked` makes one round trip, carrying the `EXISTS` of
the block key. -/
theorem RedisStrategy.IsBlocked_sent (now : Time) (c : Client) (key : String) :
    (RedisStrategy.IsBlocked now c key).2.sent = c.sent ++ [[.EXISTS ("block:" ++ key)]] := by
  simp only [RedisStrategy.IsBlocked, Client.roundTrip]
  generalize c.faults.head?.join = f
  cases f <;> rfl

/-- Whatever the network does, `Increment` leaves the records of the other keys alone. -/
theorem RedisStrategy.Increment_db_other (now : Time) (c : Client) (k k' : String)
    (ttl : Duration) (h : k' ≠ k) : (RedisStrategy.Increment now c k ttl).2.db k' = c.db k' := by
  have hincr : (c.db.INCR now k).2 k' = c.db k' := by
    unfold Db.INCR
    split
    · exact Db.put_other _ _ _ _ h
    · split
      · split
        · rfl
        · split
          · rfl
          · exact Db.put_other _ _ _ _ h
      · rfl
  have hexp : ∀ db : Db, (db.EXPIRE now k ttl).2 k' = db k' := by
    intro db
    unfold Db.EXPIRE
    split
    · rfl
    · split <;> exact Db.put_other _ _ _ _ h
  simp only [RedisStrategy.Increment, Client.roundTrip]
  generalize c.faults.head?.join = f
  cases f with
  | some e => rfl
  | none =>
    simp only
    split <;> simp [hexp, hincr]

/-- Whatever the network does, `Increment` makes one round trip, carrying `INCR` and
`EXPIRE` of its key. -/
theorem RedisStrategy.Increment_sent (now : Time) (c : Client) (k : String) (ttl : Duration) :
    (RedisStrategy.Increment now c k ttl).2.sent = c.sent ++ [[.INCR k, .EXPIRE k ttl]] := by
  simp only [RedisStrategy.Increment, Client.roundTrip]
  generalize c.faults.head?.join = f
  cases f with
  | some e => rfl
  | none =>
    simp only
    split <;> rfl

/-- Whatever the network does, `Block` leaves the records of all keys but the block key. -/
theorem RedisStrategy.Block_db_other (now : Time) (c : Client) (key k' : String)
    (d : Duration) (h : k' ≠ "block:" ++ key) :
    (RedisStrategy.Block now c key d).2.db k' = c.db k' := by
  simp only [RedisStrategy.Block, Client.roundTrip]
  generalize c.faults.head?.join = f
  cases f with
  | some e => rfl
  | none => exact Db.SET_other _ _ _ _ _ _ h

/-- Whatever the network does, `Block` makes one round trip, carrying the `SET` of the
block key. -/
theorem RedisStrategy.Block_sent (now : Time) (c : Client) (key : String) (d : Duration) :
    (RedisStrategy.Block now c key d).2.sent
      = c.sent ++ [[.SET ("block:" ++ key) (.str "blocked") d]] := by
  simp only [RedisStrategy.Block, Client.roundTrip]
  generalize c.faults.head?.join = f
  cases f <;> rfl

/-- The answer of `Get`: the outcome of the round trip, then the live record of the key. -/
theorem RedisStrategy.Get_fst (now : Time) (c : Client) (k : String) :
    (RedisStrategy.Get now c k).1
      = match c.faults.head?.join with
        | some err => .error err
        | none =>
          match c.db.GET now k with
          | none => .ok 0
          | some val => Atoi val := by
  simp only [RedisStrategy.Get, Client.roundTrip]
  generalize c.faults.head?.join = f
  cases f with
  | some e => rfl
  | none =>
    simp only
    cases c.db.GET now k with
    | none => rfl
    | some val =>
      simp only
      cases Atoi val <;> rfl

/-- The answer of `IsBlocked`: the outcome of the round trip, then whether the block key
has a live record. -/
theorem RedisStrategy.IsBlocked_fst (now : Time) (c : Client) (key : String) :
    (RedisStrategy.IsBlocked now c key).1
      = match c.faults.head?.join with
        | some err => .error err
        | none => .ok (c.db.find now ("block:" ++ key)).isSome := by
  simp only [RedisStrategy.IsBlocked, Client.roundTrip]
  generalize c.faults.head?.join = f
  cases f with
  | some e => rfl
  | none =>
    simp only [Db.EXISTS]
    by_cases h : (c.db.find now ("block:" ++ key)).isSome = true
    · simp [h]
    · simp [h]

end RedisSteps

section CheckPaths

variable {σ : Type}

/-- The fast-reject path of `Check`, for any storage: when `IsBlocked` answers true, that
call is the only one made on the storage. -/
theorem Check_of_blocked (st : StorageStrategy σ) (now : Time) (s s1 : σ) (key : String)
    (config : LimitConfig) (h : st.IsBlocked now s key = (.ok true, s1)) :
    Check st now s key config
      = (.ok { Allowed := false, Remaining := 0, ResetTime := zeroTime, Blocked := true }, s1) := by
  simp [Check, h]

/-- The counting path of `Check`, for any storage, when the count is within the limit. -/
theorem Check_of_within (st : StorageStrategy σ) (now : Time) (s s1 s2 : σ) (key : String)
    (config : LimitConfig) (newCount : Int) (existed : Bool)
    (h1 : st.IsBlocked now s key = (.ok false, s1))
    (h2 : st.Increment now s1 ("rate:" ++ key) Second = (.ok (newCount, existed), s2))
    (h3 : (if existed then newCount else 1) ≤ config.RPS) :
    Check st now s key config
      = (.ok { Allowed := true,
               Remaining := max 0 (wrapInt (config.RPS - (if existed then newCount else 1))),
               ResetTime := now + Second, Blocked := false }, s2) := by
  cases existed <;> simp at h3 <;> simp [Check, h1, h2, not_lt.mpr h3, clamp_eq_max]

/-- The counting path of `Check`, for any storage, when the count is above the limit and
the block call succeeds. -/
theorem Check_of_exceeded (st : StorageStrategy σ) (now : Time) (s s1 s2 s3 : σ) (key : String)
    (config : LimitConfig) (newCount : Int) (existed : Bool)
    (h1 : st.IsBlocked now s key = (.ok false, s1))
    (h2 : st.Increment now s1 ("rate:" ++ key) Second = (.ok (newCount, existed), s2))
    (h3 : config.RPS < (if existed then newCount else 1))
    (h4 : st.Block now s2 key config.BlockTime = (none, s3)) :
    Check st now s key config
      = (.ok { Allowed := false, Remaining := 0, ResetTime := now + Second,
               Blocked := false }, s3) := by
  cases existed <;> simp at h3 <;> simp [Check, h1, h2, h3, h4]

/-- The counting path of `Check`, for any storage, when the increment fails. -/
theorem Check_of_increment_error (st : StorageStrategy σ) (now : Time) (s : σ) (key : String)
    (config : LimitConfig) (e : GoError) (s1 s2 : σ)
    (h1 : st.IsBlocked now s key = (.ok false, s1))
    (h2 : st.Increment now s1 ("rate:" ++ key) Second = (.error e, s2)) :
    Check st now s key config = (.error (Errorf "erro ao incrementar contador: " e), s2) := by
  simp [Check, h1, h2]

/-- The store `Check` leaves is the one left by its last storage call: by `IsBlocked`, by
`Increment` after it, or by `Block` after both. -/
theorem Check_store_cases (st : StorageStrategy σ) (now : Time) (s : σ) (key : String)
    (config : LimitConfig) :
    (Check st now s key config).2 = (st.IsBlocked now s key).2
    ∨ (Check st now s key config).2
        = (st.Increment now (st.IsBlocked now s key).2 ("rate:" ++ key) Second).2
    ∨ (Check st now s key config).2
        = (st.Block now
            (st.Increment now (st.IsBlocked now s key).2 ("rate:" ++ key) Second).2
            key config.BlockTime).2 := by
  rcases h1 : st.IsBlocked now s key with ⟨r1, s1⟩
  cases r1 with
  | error e => left; simp [Check, h1]
  | ok b =>
    cases b with
    | true => left; simp [Check, h1]
    | false =>
      rcases h2 : st.Increment now s1 ("rate:" ++ key) Second with ⟨r2, s2⟩
      cases r2 with
      | error e => right; left; simp [Check, h1, h2]
      | ok p =>
        obtain ⟨n, ex⟩ := p
        by_cases hlim : config.RPS < (if ex then n else 1)
        · right; right
          rcases h3 : st.Block now s2 key config.BlockTime with ⟨r3, s3⟩
          cases r3 with
          | none =>
            rw [Check_of_exceeded st now s s1 s2 s3 key config n ex h1 h2 hlim h3]
          | some e =>
            cases ex <;> simp at hlim <;> simp [Check, h1, h2, hlim, h3]
        · right; left
          rw [Check_of_within st now s s1 s2 key config n ex h1 h2 (by omega)]

/-- A `Check` that returns allowed=true has made two calls on the storage and no more:
`IsBlocked`, which answered false, then `Increment` of the counting key, which succeeded;
the store it leaves is the one `Increment` left. -/
theorem Check_of_allowed (st : StorageStrategy σ) (now : Time) (s : σ) (key : String)
    (config : LimitConfig) (r : CheckResult)
    (h : (Check st now s key config).1 = .ok r) (hA : r.Allowed = true) :
    (st.IsBlocked now s key).1 = .ok false
    ∧ (∃ p, (st.Increment now (st.IsBlocked now s key).2 ("rate:" ++ key) Second).1 = .ok p)
    ∧ (Check st now s key config).2
        = (st.Increment now (st.IsBlocked now s key).2 ("rate:" ++ key) Second).2 := by
  rcases h1 : st.IsBlocked now s key with ⟨r1, s1⟩
  cases r1 with
  | error e => simp [Check, h1] at h
  | ok b =>
    cases b with
    | true =>
      simp [Check, h1] at h
      subst h
      cases hA
    | false =>
      rcases h2 : st.Increment now s1 ("rate:" ++ key) Second with ⟨r2, s2⟩
      cases r2 with
      | error e => simp [Check, h1, h2] at h
      | ok p =>
        obtain ⟨n, ex⟩ := p
        by_cases hlim : config.RPS < (if ex then n else 1)
        · rcases h3 : st.Block now s2 key config.BlockTime with ⟨r3, s3⟩
          cases r3 with
          | none =>
            rw [Check_of_exceeded st now s s1 s2 s3 key config n ex h1 h2 hlim h3] at h
            simp only [Except.ok.injEq] at h
            subst h
            cases hA
          | some e =>
            cases ex <;> simp at hlim <;> simp [Check, h1, h2, hlim, h3] at h
        · refine ⟨rfl, ⟨_, rfl⟩, ?_⟩
          rw [Check_of_within st now s s1 s2 key config n ex h1 h2 (by omega)]

end CheckPaths

section RedisRuns

/-- A check on a healthy Redis store whose block record is live. -/
theorem Check_redis_blocked (now : Time) (c : Client) (key : String) (config : LimitConfig)
    (e : Entry) (hf : c.faults = []) (hb : c.db.find now ("block:" ++ key) = some e) :
    Check RedisStrategy now c key config
      = (.ok { Allowed := false, Remaining := 0, ResetTime := zeroTime, Blocked := true },
         { c with sent := c.sent ++ [[.EXISTS ("block:" ++ key)]] }) := by
  apply Check_of_blocked
  show RedisStrategy.IsBlocked now c key = _
  rw [RedisStrategy.IsBlocked_healthy now c key hf, hb]
  rfl

/-- A check on a healthy Redis store, key not blocked and without live counter record. -/
theorem Check_redis_first (now : Time) (c : Client) (key : String) (config : LimitConfig)
    (hf : c.faults = []) (hb : c.db.find now ("block:" ++ key) = none)
    (hc : c.db.find now ("rate:" ++ key) = none) (hN : 1 ≤ config.RPS) :
    Check RedisStrategy now c key config
      = (.ok { Allowed := true, Remaining := max 0 (wrapInt (config.RPS - 1)),
               ResetTime := now + Second, Blocked := false },
         { c with db := c.db.put ("rate:" ++ key)
                    (some { value := .int 1, expireAt := some (mstime now + 1000) }),
                  sent := c.sent ++ [[.EXISTS ("block:" ++ key)],
                    [.INCR ("rate:" ++ key), .EXPIRE ("rate:" ++ key) Second]] }) := by
  have h1 := RedisStrategy.IsBlocked_healthy now c key hf
  rw [hb] at h1
  have h2 := RedisStrategy.Increment_absent now
    { c with sent := c.sent ++ [[.EXISTS ("block:" ++ key)]] } ("rate:" ++ key) hf hc
  have h := Check_of_within RedisStrategy now c _ _ key config 1 false h1 h2 (by simpa using hN)
  simpa using h

/-- The count `Check` works with when the increment of the Redis backend returned `n + 1`
for a counter that held `n ≥ 0`. -/
theorem count_of_incremented (n : Int) (hn : 0 ≤ n) :
    (if decide (n + 1 > 1) = true then n + 1 else 1) = n + 1 := by
  split
  · rfl
  · rename_i h
    simp at h
    omega

/-- A check on a healthy Redis store, key not blocked, whose live counter record holds
`n ≥ 0` with `n + 1` within the limit. -/
theorem Check_redis_next (now : Time) (c : Client) (key : String) (config : LimitConfig)
    (n : Int) (exp : Option Int)
    (hf : c.faults = []) (hb : c.db.find now ("block:" ++ key) = none)
    (hc : c.db.find now ("rate:" ++ key) = some { value := .int n, expireAt := exp })
    (hn : 0 ≤ n) (hmax : n < maxInt) (hN : n + 1 ≤ config.RPS) :
    Check RedisStrategy now c key config
      = (.ok { Allowed := true, Remaining := max 0 (wrapInt (config.RPS - (n + 1))),
               ResetTime := now + Second, Blocked := false },
         { c with db := c.db.put ("rate:" ++ key)
                    (some { value := .int (n + 1), expireAt := some (mstime now + 1000) }),
                  sent := c.sent ++ [[.EXISTS ("block:" ++ key)],
                    [.INCR ("rate:" ++ key), .EXPIRE ("rate:" ++ key) Second]] }) := by
  have h1 := RedisStrategy.IsBlocked_healthy now c key hf
  rw [hb] at h1
  have hmin : minInt ≤ n := le_trans (by decide) hn
  have h2 := RedisStrategy.Increment_int now
    { c with sent := c.sent ++ [[.EXISTS ("block:" ++ key)]] } ("rate:" ++ key)
    hf n exp hmin hmax hc
  have hcount := count_of_incremented n hn
  have h := Check_of_within RedisStrategy now c _ _ key config (n + 1) (decide (n + 1 > 1))
    h1 h2 (by rw [hcount]; exact hN)
  rw [hcount] at h
  simpa using h

/-- A check on a healthy Redis store, key not blocked, whose live counter record holds
`n ≥ 0` with `n + 1` above the limit: the key gets blocked. -/
theorem Check_redis_exceeded (now : Time) (c : Client) (key : String) (config : LimitConfig)
    (n : Int) (exp : Option Int)
    (hf : c.faults = []) (hb : c.db.find now ("block:" ++ key) = none)
    (hc : c.db.find now ("rate:" ++ key) = some { value := .int n, expireAt := exp })
    (hn : 0 ≤ n) (hmax : n < maxInt) (hN : config.RPS < n + 1) :
    Check RedisStrategy now c key config
      = (.ok { Allowed := false, Remaining := 0, ResetTime := now + Second, Blocked := false },
         { c with db := (c.db.put ("rate:" ++ key)
                    (some { value := .int (n + 1), expireAt := some (mstime now + 1000) })).SET
                      now ("block:" ++ key) (.str "blocked") config.BlockTime,
                  sent := c.sent ++ [[.EXISTS ("block:" ++ key)],
                    [.INCR ("rate:" ++ key), .EXPIRE ("rate:" ++ key) Second],
                    [.SET ("block:" ++ key) (.str "blocked") config.BlockTime]] }) := by
  have h1 := RedisStrategy.IsBlocked_healthy now c key hf
  rw [hb] at h1
  have hmin : minInt ≤ n := le_trans (by decide) hn
  have h2 := RedisStrategy.Increment_int now
    { c with sent := c.sent ++ [[.EXISTS ("block:" ++ key)]] } ("rate:" ++ key)
    hf n exp hmin hmax hc
  have hcount := count_of_incremented n hn
  have h3 := RedisStrategy.Block_healthy now
    { c with db := c.db.put ("rate:" ++ key)
               (some { value := .int (n + 1), expireAt := some (mstime now + 1000) }),
             sent := c.sent ++ [[.EXISTS ("block:" ++ key)]]
               ++ [[.INCR ("rate:" ++ key), .EXPIRE ("rate:" ++ key) Second]] }
    key config.BlockTime hf
  have h := Check_of_exceeded RedisStrategy now c _ _ _ key config (n + 1)
    (decide (n + 1 > 1)) h1 h2 (by rw [hcount]; exact hN) h3
  simpa using h

theorem runChecks_cons {σ : Type} (st : StorageStrategy σ) (key : String)
    (config : LimitConfig) (t : Time) (ts : List Time) (s : σ) :
    runChecks st key config (t :: ts) s
      = ((Check st t s key config).1 :: (runChecks st key config ts (Check st t s key config).2).1,
         (runChecks st key config ts (Check st t s key config).2).2) := rfl

/-- Checks on a healthy Redis store while the block record is live: all rejected as blocked,
and the keyspace is left as it was. -/
theorem runChecks_redis_blocked (key : String) (config : LimitConfig) (e : Entry) :
    ∀ (later : List Time) (c : Client), c.faults = [] → c.db ("block:" ++ key) = some e →
      (∀ t ∈ later, e.live t = true) →
      (runChecks RedisStrategy key config later c).1
        = later.map (fun _ => .ok { Allowed := false, Remaining := 0, ResetTime := zeroTime,
                                    Blocked := true })
      ∧ (runChecks RedisStrategy key config later c).2.db = c.db
      ∧ (runChecks RedisStrategy key config later c).2.faults = [] := by
  intro later
  induction later with
  | nil => intro c hf _ _; exact ⟨rfl, rfl, hf⟩
  | cons t ts ih =>
    intro c hf hb hl
    have hfind : c.db.find t ("block:" ++ key) = some e := by
      simp [Db.find, hb, hl t (List.mem_cons_self _ _)]
    have hstep := Check_redis_blocked t c key config e hf hfind
    rw [runChecks_cons, hstep]
    obtain ⟨ih1, ih2, ih3⟩ := ih { c with sent := c.sent ++ [[.EXISTS ("block:" ++ key)]] }
      hf hb (fun t' ht' => hl t' (List.mem_cons_of_mem _ ht'))
    exact ⟨by simp [ih1], ih2, ih3⟩

/-- The block record that `SET` writes at `tx` on a key without live block record is live
at every instant less than the time to live it was sent after `tx`, and at every instant
when the duration is not positive (the record then has no expiry). -/
theorem Db.SET_block_live (db : Db) (tx : Time) (k : String) (d : Duration)
    (hb : db.find tx k = none) :
    ∃ e, db.SET tx k (.str "blocked") d k = some e
      ∧ (∀ t : Time, (0 < d → t < tx + setMillis d * Millisecond) → e.live t = true)
      ∧ (0 < d → e.expireAt = some (mstime tx + setMillis d)) := by
  unfold Db.SET
  split
  · rename_i hpos
    refine ⟨_, Db.put_same _ _ _, ?_, fun _ => rfl⟩
    intro t ht
    have h2 : mstime t ≤ mstime tx + setMillis d := mstime_le_of_lt tx t _ (ht hpos)
    simp [Entry.live, h2]
  · rename_i hpos
    split
    · refine ⟨_, Db.put_same _ _ _, ?_, fun h => absurd h hpos⟩
      intro t _
      simp [Entry.live, hb]
    · exact ⟨_, Db.put_same _ _ _, fun _ _ => rfl, fun h => absurd h hpos⟩

/-- From a counter record holding `n`, with `n + |ts| = RPS`: the checks at `ts` are allowed
with remaining `RPS - (n+1)`, ..., `0`, the check at `tx` exceeds the limit, and the checks
at `later` find the key blocked. -/
theorem runChecks_redis_from (key : String) (config : LimitConfig) (tx : Time)
    (later : List Time) (hmax : config.RPS < maxInt)
    (hlater : ∀ t ∈ later, 0 < config.BlockTime →
      t < tx + setMillis config.BlockTime * Millisecond) :
    ∀ (ts : List Time) (c : Client) (n : Nat) (tprev : Time), c.faults = [] →
      (∀ t ∈ ts ++ [tx], c.db.find t ("block:" ++ key) = none) →
      c.db ("rate:" ++ key) = some { value := .int n, expireAt := some (mstime tprev + 1000) } →
      withinWindow (tprev :: (ts ++ [tx])) = true →
      ((n + ts.length : Nat) : Int) = config.RPS →
      (runChecks RedisStrategy key config (ts ++ tx :: later) c).1
        = (ts.enumFrom (n + 1)).map
            (fun p => .ok { Allowed := true, Remaining := config.RPS - p.1,
                            ResetTime := p.2 + Second, Blocked := false })
          ++ .ok { Allowed := false, Remaining := 0, ResetTime := tx + Second, Blocked := false }
          :: later.map (fun _ => .ok { Allowed := false, Remaining := 0, ResetTime := zeroTime,
                                       Blocked := true }) := by
  intro ts
  induction ts with
  | nil =>
    intro c n tprev hf hb hc hw hlen
    simp [withinWindow] at hw
    simp at hlen
    have hbf : c.db.find tx ("block:" ++ key) = none := hb tx (by simp)
    have hlive : mstime tx ≤ mstime tprev + 1000 := mstime_le_of_lt tprev tx 1000 hw
    have hcf : c.db.find tx ("rate:" ++ key)
        = some { value := .int n, expireAt := some (mstime tprev + 1000) } := by
      simp [Db.find, hc, Entry.live, hlive]
    have hstep := Check_redis_exceeded tx c key config n _ hf hbf hcf (by omega)
      (by rw [hlen]; exact hmax) (by omega)
    simp only [List.nil_append, runChecks_cons, hstep, List.enumFrom_nil, List.map_nil]
    have hput : (c.db.put ("rate:" ++ key)
        (some { value := .int (n + 1), expireAt := some (mstime tx + 1000) })).find tx
          ("block:" ++ key) = none := by
      rw [Db.find_put_other _ _ _ _ _ (block_ne_rate _ _)]; exact hbf
    obtain ⟨e, he, hl, -⟩ := Db.SET_block_live _ tx ("block:" ++ key) config.BlockTime hput
    refine congrArg (List.cons _) ?_
    refine (runChecks_redis_blocked key config e later _ ?_ ?_ ?_).1
    · exact hf
    · exact he
    · exact fun t ht => hl t (hlater t ht)
  | cons t ts ih =>
    intro c n tprev hf hb hc hw hlen
    simp [withinWindow] at hw
    simp at hlen
    have hbf : c.db.find t ("block:" ++ key) = none := hb t (by simp)
    have hlive : mstime t ≤ mstime tprev + 1000 := mstime_le_of_lt tprev t 1000 hw.1
    have hcf : c.db.find t ("rate:" ++ key)
        = some { value := .int n, expireAt := some (mstime tprev + 1000) } := by
      simp [Db.find, hc, Entry.live, hlive]
    have hmaxI : config.RPS < maxInt := hmax
    have hRle : config.RPS ≤ maxInt := le_of_lt hmax
    unfold maxInt at hmaxI hRle
    have hstep := Check_redis_next t c key config n _ hf hbf hcf (by omega)
      (by unfold maxInt; omega) (by omega)
    have hrem : max 0 (wrapInt (config.RPS - ((n : Int) + 1))) = config.RPS - ((n : Int) + 1) := by
      rw [wrapInt_of_range _ (by unfold minInt; omega) (by unfold maxInt; omega)]
      omega
    rw [hrem] at hstep
    simp only [List.cons_append, runChecks_cons, hstep, List.enumFrom_cons, List.map_cons]
    have hb2 : ∀ t2 ∈ ts ++ [tx], (c.db.put ("rate:" ++ key)
        (some { value := .int (n + 1), expireAt := some (mstime t + 1000) })).find t2
          ("block:" ++ key) = none := by
      intro t2 ht2
      rw [Db.find_put_other _ _ _ _ _ (block_ne_rate _ _)]
      exact hb t2 (List.mem_cons_of_mem _ ht2)
    have hc2 : (c.db.put ("rate:" ++ key)
        (some { value := .int (n + 1), expireAt := some (mstime t + 1000) })) ("rate:" ++ key)
        = some { value := .int ((n + 1 : Nat) : Int), expireAt := some (mstime t + 1000) } := by
      simp
    have hih := ih
      { db := c.db.put ("rate:" ++ key)
                 (some { value := .int (n + 1), expireAt := some (mstime t + 1000) }),
        faults := c.faults,
        sent := c.sent ++ [[.EXISTS ("block:" ++ key)],
                 [.INCR ("rate:" ++ key), .EXPIRE ("rate:" ++ key) Second]] }
      (n + 1) t hf hb2 hc2 hw.2 (by push_cast; omega)
    rw [hih]
    simp

/-- A run over two lists of instants is the run over the first followed by the run over the
second, on the store the first left. -/
theorem runChecks_append {σ : Type} (st : StorageStrategy σ) (key : String)
    (config : LimitConfig) :
    ∀ (ts rest : List Time) (s : σ),
      runChecks st key config (ts ++ rest) s
        = ((runChecks st key config ts s).1
            ++ (runChecks st key config rest (runChecks st key config ts s).2).1,
           (runChecks st key config rest (runChecks st key config ts s).2).2) := by
  intro ts
  induction ts with
  | nil => intro rest s; rfl
  | cons t ts ih =>
    intro rest s
    simp only [List.cons_append, runChecks_cons, ih]

/-- From a counter record holding `n`, with `n + |ts|` within the limit: the checks at `ts`
are allowed with remaining `RPS - (n+1)`, `RPS - (n+2)`, ..., and leave the network healthy,
the block record as it was, and the counter record at `n + |ts|`, still live at `tx`, an
instant within the window of the last check. -/
theorem runChecks_redis_allowed (key : String) (config : LimitConfig) (tx : Time)
    (hmax : config.RPS ≤ maxInt) :
    ∀ (ts : List Time) (c : Client) (n : Nat) (tprev : Time), c.faults = [] →
      (∀ t ∈ ts, c.db.find t ("block:" ++ key) = none) →
      c.db ("rate:" ++ key) = some { value := .int n, expireAt := some (mstime tprev + 1000) } →
      withinWindow (tprev :: (ts ++ [tx])) = true →
      ((n + ts.length : Nat) : Int) ≤ config.RPS →
      (runChecks RedisStrategy key config ts c).1
          = (ts.enumFrom (n + 1)).map
              (fun p => .ok { Allowed := true, Remaining := config.RPS - p.1,
                              ResetTime := p.2 + Second, Blocked := false })
        ∧ (runChecks RedisStrategy key config ts c).2.faults = []
        ∧ (runChecks RedisStrategy key config ts c).2.db ("block:" ++ key)
            = c.db ("block:" ++ key)
        ∧ ∃ E, (runChecks RedisStrategy key config ts c).2.db ("rate:" ++ key)
              = some { value := .int ((n + ts.length : Nat) : Int), expireAt := some E }
            ∧ mstime tx ≤ E := by
  intro ts
  induction ts with
  | nil =>
    intro c n tprev hf _ hc hw _
    simp [withinWindow] at hw
    exact ⟨rfl, hf, rfl, mstime tprev + 1000, by simpa using hc,
      mstime_le_of_lt tprev tx 1000 hw⟩
  | cons t ts ih =>
    intro c n tprev hf hb hc hw hlen
    simp [withinWindow] at hw
    simp at hlen
    have hbf : c.db.find t ("block:" ++ key) = none := hb t (by simp)
    have hlive : mstime t ≤ mstime tprev + 1000 := mstime_le_of_lt tprev t 1000 hw.1
    have hcf : c.db.find t ("rate:" ++ key)
        = some { value := .int n, expireAt := some (mstime tprev + 1000) } := by
      simp [Db.find, hc, Entry.live, hlive]
    have hRle : config.RPS ≤ maxInt := hmax
    unfold maxInt at hRle
    have hstep := Check_redis_next t c key config n _ hf hbf hcf (by omega)
      (by unfold maxInt; omega) (by omega)
    have hrem : max 0 (wrapInt (config.RPS - ((n : Int) + 1))) = config.RPS - ((n : Int) + 1) := by
      rw [wrapInt_of_range _ (by unfold minInt; omega) (by unfold maxInt; omega)]
      omega
    rw [hrem] at hstep
    have hb2 : ∀ t2 ∈ ts, (c.db.put ("rate:" ++ key)
        (some { value := .int (n + 1), expireAt := some (mstime t + 1000) })).find t2
          ("block:" ++ key) = none := by
      intro t2 ht2
      rw [Db.find_put_other _ _ _ _ _ (block_ne_rate _ _)]
      exact hb t2 (List.mem_cons_of_mem _ ht2)
    have hc2 : (c.db.put ("rate:" ++ key)
        (some { value := .int (n + 1), expireAt := some (mstime t + 1000) })) ("rate:" ++ key)
        = some { value := .int ((n + 1 : Nat) : Int), expireAt := some (mstime t + 1000) } := by
      simp
    obtain ⟨ih1, ih2, ih3, E, ih4, hE⟩ := ih
      { db := c.db.put ("rate:" ++ key)
                 (some { value := .int (n + 1), expireAt := some (mstime t + 1000) }),
        faults := c.faults,
        sent := c.sent ++ [[.EXISTS ("block:" ++ key)],
                 [.INCR ("rate:" ++ key), .EXPIRE ("rate:" ++ key) Second]] }
      (n + 1) t hf hb2 hc2 hw.2 (by push_cast; omega)
    simp only [runChecks_cons, hstep, List.enumFrom_cons, List.map_cons]
    refine ⟨?_, ih2, ?_, E, ?_, hE⟩
    · rw [ih1]
      simp
    · rw [ih3]
      exact Db.put_other c.db ("rate:" ++ key) ("block:" ++ key)
        (some { value := .int (n + 1), expireAt := some (mstime t + 1000) })
        (block_ne_rate _ _)
    · rw [ih4]
      have : n + 1 + ts.length = n + (ts.length + 1) := by omega
      simp [this]

/-- On a network that does not fail, `Increment` of a key whose live record holds the
largest `int64` fails: `INCR` refuses to overflow. -/
theorem RedisStrategy.Increment_overflow (now : Time) (c : Client) (k : String)
    (hf : c.faults = []) (exp : Option Int)
    (hk : c.db.find now k = some { value := .int maxInt, expireAt := exp }) :
    (RedisStrategy.Increment now c k Second).1
      = .error (Errorf "erro no pipeline Redis: "
          (.mk "ERR increment or decrement would overflow")) := by
  have hmm : ¬ maxInt < minInt := by decide
  simp [RedisStrategy.Increment, Client.roundTrip, hf, Db.INCR, hk, hmm]

/-- Checks that all come at the same instant are within the window of each other. -/
theorem withinWindow_replicate (t : Time) :
    ∀ n : Nat, withinWindow (t :: List.replicate n t) = true := by
  intro n
  induction n with
  | zero => rfl
  | succ n ih =>
    have hlt : t < t + Second := lt_add_of_pos_right t Second_pos
    simp only [List.replicate_succ, withinWindow, hlt, decide_True, Bool.true_and]
    exact ih

/-- A check on a healthy Redis store leaves the network healthy. -/
theorem Check_redis_faults (now : Time) (c : Client) (key : String) (config : LimitConfig)
    (hf : c.faults = []) : (Check RedisStrategy now c key config).2.faults = [] := by
  have hA : (RedisStrategy.IsBlocked now c key).2.faults = [] := by
    rw [RedisStrategy.IsBlocked_healthy now c key hf]
    exact hf
  have hB : ∀ c1 : Client, c1.faults = [] →
      (RedisStrategy.Increment now c1 ("rate:" ++ key) Second).2.faults = [] := by
    intro c1 h1
    have ht : c1.faults.tail = [] := by rw [h1]; rfl
    simp only [RedisStrategy.Increment, Client.roundTrip]
    generalize c1.faults.head?.join = f
    cases f with
    | some e => exact ht
    | none =>
      simp only
      split <;> exact ht
  have hC : ∀ c1 : Client, c1.faults = [] →
      (RedisStrategy.Block now c1 key config.BlockTime).2.faults = [] := by
    intro c1 h1
    rw [RedisStrategy.Block_healthy now c1 key _ h1]
    exact h1
  rcases Check_store_cases RedisStrategy now c key config with h | h | h
  · rw [h]; exact hA
  · rw [h]; exact hB _ hA
  · rw [h]; exact hC _ (hB _ hA)

/-- With the largest `int64` as limit, the limit cannot be exceeded: after as many allowed
checks as the limit, within one window, the counter holds the largest `int64`, `INCR`
refuses to overflow, and the next check returns that error. -/
theorem runChecks_redis_overflow (c : Client) (key : String) (config : LimitConfig)
    (ts : List Time) (tx : Time) (hRPS : config.RPS = maxInt)
    (hlen : (ts.length : Int) = maxInt) (hnet : c.faults = [])
    (hcount : ∀ t ∈ ts ++ [tx], c.db.find t ("rate:" ++ key) = none)
    (hblock : ∀ t ∈ ts ++ [tx], c.db.find t ("block:" ++ key) = none)
    (hwin : withinWindow (ts ++ [tx]) = true) :
    (runChecks RedisStrategy key config (ts ++ [tx]) c).1.getLast?
      = some (.error (Errorf "erro ao incrementar contador: "
          (Errorf "erro no pipeline Redis: "
            (.mk "ERR increment or decrement would overflow")))) := by
  cases ts with
  | nil =>
    unfold maxInt at hlen
    simp at hlen
  | cons t1 ts =>
    have hbf : c.db.find t1 ("block:" ++ key) = none := hblock t1 (by simp)
    have hcf : c.db.find t1 ("rate:" ++ key) = none := hcount t1 (by simp)
    have hR1 : 1 ≤ config.RPS := by rw [hRPS]; decide
    have hstep := Check_redis_first t1 c key config hnet hbf hcf hR1
    have hb2 : ∀ t ∈ ts ++ [tx], (c.db.put ("rate:" ++ key)
        (some { value := .int 1, expireAt := some (mstime t1 + 1000) })).find t
          ("block:" ++ key) = none := by
      intro t ht
      rw [Db.find_put_other _ _ _ _ _ (block_ne_rate _ _)]
      exact hblock t (List.mem_cons_of_mem _ ht)
    have hc2 : (c.db.put ("rate:" ++ key)
        (some { value := .int 1, expireAt := some (mstime t1 + 1000) })) ("rate:" ++ key)
        = some { value := .int ((1 : Nat) : Int), expireAt := some (mstime t1 + 1000) } := by
      simp
    have hlen2 : ((1 + ts.length : Nat) : Int) = maxInt := by
      rw [← hlen]
      simp only [List.length_cons]
      push_cast
      ring
    obtain ⟨-, hf2, hbk2, E, hck2, hE⟩ := runChecks_redis_allowed key config tx
      (le_of_eq hRPS) ts
      { db := c.db.put ("rate:" ++ key)
                 (some { value := .int 1, expireAt := some (mstime t1 + 1000) }),
        faults := c.faults,
        sent := c.sent ++ [[.EXISTS ("block:" ++ key)],
                 [.INCR ("rate:" ++ key), .EXPIRE ("rate:" ++ key) Second]] }
      1 t1 hnet (fun t ht => hb2 t (List.mem_append_left _ ht)) hc2 hwin
      (by rw [hlen2, hRPS])
    rw [hlen2] at hck2
    simp only [List.cons_append, runChecks_cons, hstep, runChecks_append]
    generalize (runChecks RedisStrategy key config ts
      { db := c.db.put ("rate:" ++ key)
                 (some { value := .int 1, expireAt := some (mstime t1 + 1000) }),
        faults := c.faults,
        sent := c.sent ++ [[.EXISTS ("block:" ++ key)],
                 [.INCR ("rate:" ++ key), .EXPIRE ("rate:" ++ key) Second]] }) = run
      at hf2 hbk2 hck2 ⊢
    obtain ⟨results, c2⟩ := run
    simp only at hf2 hbk2 hck2 ⊢
    -- the last check: not blocked, and the counter is at the largest `int64`
    have hbf2 : c2.db.find tx ("block:" ++ key) = none := by
      have := hb2 tx (by simp)
      simp only [Db.find, hbk2] at this ⊢
      exact this
    have hcf2 : c2.db.find tx ("rate:" ++ key)
        = some { value := .int maxInt, expireAt := some E } := by
      simp [Db.find, hck2, Entry.live, hE]
    have h1 := RedisStrategy.IsBlocked_healthy tx c2 key hf2
    rw [hbf2] at h1
    have h2 := RedisStrategy.Increment_overflow tx
      { c2 with sent := c2.sent ++ [[.EXISTS ("block:" ++ key)]] } ("rate:" ++ key)
      hf2 (some E) hcf2
    have h3 : RedisStrategy.Increment tx
        { c2 with sent := c2.sent ++ [[.EXISTS ("block:" ++ key)]] } ("rate:" ++ key) Second
        = (.error (Errorf "erro no pipeline Redis: "
            (.mk "ERR increment or decrement would overflow")),
           (RedisStrategy.Increment tx
            { c2 with sent := c2.sent ++ [[.EXISTS ("block:" ++ key)]] }
            ("rate:" ++ key) Second).2) := by
      rw [← h2]
    have h4 := Check_of_increment_error RedisStrategy tx c2 key config _ _ _ h1 h3
    rw [h4]
    simp only [runChecks]
    rw [← List.cons_append, List.getLast?_concat]

/-- The only records a check of `key` on the Redis backend can change are the counter
record and the block record of `key`. -/
theorem Check_redis_db_other (now : Time) (c : Client) (key k : String) (config : LimitConfig)
    (h1 : k ≠ "rate:" ++ key) (h2 : k ≠ "block:" ++ key) :
    (Check RedisStrategy now c key config).2.db k = c.db k := by
  have hA : (RedisStrategy.IsBlocked now c key).2.db k = c.db k := by
    rw [RedisStrategy.IsBlocked_db]
  have hB : (RedisStrategy.Increment now (RedisStrategy.IsBlocked now c key).2
      ("rate:" ++ key) Second).2.db k = c.db k := by
    rw [RedisStrategy.Increment_db_other _ _ _ _ _ h1, hA]
  have hC : (RedisStrategy.Block now (RedisStrategy.Increment now
      (RedisStrategy.IsBlocked now c key).2 ("rate:" ++ key) Second).2
      key config.BlockTime).2.db k = c.db k := by
    rw [RedisStrategy.Block_db_other _ _ _ _ _ h2, hB]
  rcases Check_store_cases RedisStrategy now c key config with h | h | h
  · rw [h]; exact hA
  · rw [h]; exact hB
  · rw [h]; exact hC

/-- The round trips a check of `key` on the Redis backend makes: the `EXISTS` of the block
key; then, unless the key is blocked or that failed, `INCR` and `EXPIRE` of the counting key
in one pipeline; then, when the limit is exceeded, the `SET` of the block key. -/
theorem Check_redis_sent (now : Time) (c : Client) (key : String) (config : LimitConfig) :
    (Check RedisStrategy now c key config).2.sent
        = c.sent ++ [[.EXISTS ("block:" ++ key)]]
    ∨ (Check RedisStrategy now c key config).2.sent
        = c.sent ++ [[.EXISTS ("block:" ++ key)],
            [.INCR ("rate:" ++ key), .EXPIRE ("rate:" ++ key) Second]]
    ∨ (Check RedisStrategy now c key config).2.sent
        = c.sent ++ [[.EXISTS ("block:" ++ key)],
            [.INCR ("rate:" ++ key), .EXPIRE ("rate:" ++ key) Second],
            [.SET ("block:" ++ key) (.str "blocked") config.BlockTime]] := by
  have hA := RedisStrategy.IsBlocked_sent now c key
  have hB := RedisStrategy.Increment_sent now (RedisStrategy.IsBlocked now c key).2
    ("rate:" ++ key) Second
  have hC := RedisStrategy.Block_sent now (RedisStrategy.Increment now
    (RedisStrategy.IsBlocked now c key).2 ("rate:" ++ key) Second).2 key config.BlockTime
  rw [hB] at hC
  rw [hA] at hB hC
  rcases Check_store_cases RedisStrategy now c key config with h | h | h
  · left; rw [h]; exact hA
  · right; left; rw [h]; simpa using hB
  · right; right; rw [h]; simpa using hC

end RedisRuns

section Interleavings

theorem filterMap_set_same {α β : Type} (f : α → Option β) :
    ∀ (l : List α) (i : Nat) (c c' : α), l[i]? = some c → f c' = f c →
      (l.set i c').filterMap f = l.filterMap f := by
  intro l
  induction l with
  | nil => intro i c c' h; simp at h
  | cons a l ih =>
    intro i c c' h hf
    cases i with
    | zero =>
      simp at h
      subst h
      simp [List.filterMap_cons, hf]
    | succ i =>
      simp at h
      simp only [List.set_cons_succ, List.filterMap_cons]
      rw [ih i c c' h hf]

theorem filterMap_set_new {α β : Type} (f : α → Option β) :
    ∀ (l : List α) (i : Nat) (c c' : α) (n : β), l[i]? = some c → f c = none →
      f c' = some n → ((l.set i c').filterMap f).Perm (n :: l.filterMap f) := by
  intro l
  induction l with
  | nil => intro i c c' n h; simp at h
  | cons a l ih =>
    intro i c c' n h hf hf'
    cases i with
    | zero =>
      simp at h
      subst h
      simp [List.filterMap_cons, hf, hf']
    | succ i =>
      simp at h
      have := ih i c c' n h hf hf'
      simp only [List.set_cons_succ, List.filterMap_cons]
      cases hfa : f a with
      | none => simpa using this
      | some b =>
        simp only
        exact (List.Perm.cons b this).trans (List.Perm.swap n b _)

theorem oneTo_succ (v : Nat) : oneTo (v + 1) = oneTo v ++ [(v : Int) + 1] := by
  simp [oneTo, List.range_succ]

theorem countP_oneTo (R v : Nat) :
    (oneTo v).countP (fun n => decide (n ≤ (R : Int))) = min v R := by
  induction v with
  | zero => simp [oneTo]
  | succ v ih =>
    rw [oneTo_succ, List.countP_append, ih]
    by_cases h : v + 1 ≤ R
    · have : ((v : Int) + 1 ≤ R) := by omega
      simp [List.countP_cons, this]
      omega
    · have : ¬ ((v : Int) + 1 ≤ R) := by omega
      simp [List.countP_cons, this]
      omega

theorem mem_oneTo (v : Nat) (n : Int) : n ∈ oneTo v ↔ 1 ≤ n ∧ n ≤ v := by
  simp only [oneTo, List.mem_map, List.mem_range]
  constructor
  · rintro ⟨a, ha, rfl⟩
    omega
  · rintro ⟨h1, h2⟩
    obtain ⟨k, hk⟩ := Int.eq_ofNat_of_zero_le (by omega : 0 ≤ n - 1)
    exact ⟨k, by omega, by omega⟩

theorem nodup_oneTo (v : Nat) : (oneTo v).Nodup :=
  (List.nodup_range v).map (fun a b h => by simpa using h)

/-- A turn that leaves the count of the caller as it is leaves the counts of the pool. -/
theorem Pool.gots_set_same (p : Pool) (db : Db) (who : Nat) (c c' : Caller)
    (hget : p.callers[who]? = some c) (hgot : c'.got = c.got) :
    Pool.gots { db := db, callers := p.callers.set who c' } = p.gots :=
  filterMap_set_same Caller.got p.callers who c c' hget hgot

/-- A turn that does not make the caller receive a count, and leaves the counter and block
records with what the invariant asks of them, keeps the invariant. -/
theorem Pool.Inv.of_same_gots {key : String} {config : LimitConfig} {tEnd : Time} {p : Pool}
    (h : p.Inv key config tEnd) (db : Db) (who : Nat) (c c' : Caller)
    (hget : p.callers[who]? = some c) (hgot : c'.got = c.got)
    (hcounter0 : p.gots.length = 0 → db ("rate:" ++ key) = none)
    (hcounter : 0 < p.gots.length →
      ∃ exp, db ("rate:" ++ key) = some { value := .int p.gots.length, expireAt := exp }
        ∧ ∀ e, exp = some e → mstime tEnd ≤ e)
    (hblock : db ("block:" ++ key) ≠ none → config.RPS < p.gots.length)
    (hnew : ∀ r, c' = .done r none → config.RPS < p.gots.length)
    (hgood : c'.Good config) :
    Pool.Inv key config tEnd { db := db, callers := p.callers.set who c' } := by
  have hg := Pool.gots_set_same p db who c c' hget hgot
  refine ⟨?_, ?_, ?_, ?_, ?_, ?_⟩
  · rw [hg]; exact h.perm
  · simpa using h.small
  · rw [hg]; exact hcounter0
  · rw [hg]; exact hcounter
  · rw [hg]
    rintro (hb | ⟨x, hx, r, hr⟩)
    · exact hblock hb
    · rcases List.mem_or_eq_of_mem_set hx with hx | hx
      · exact h.block (Or.inr ⟨x, hx, r, hr⟩)
      · rw [hx] at hr; exact hnew r hr
  · intro x hx
    rcases List.mem_or_eq_of_mem_set hx with hx | hx
    · exact h.good x hx
    · rw [hx]; exact hgood

/-- A record that has no expiry, or one at the clock reading of `tEnd` or later, is live
before then. -/
theorem Entry.live_of_window (e : Entry) (tEnd t : Time) (ht : t < tEnd)
    (h : ∀ x, e.expireAt = some x → mstime tEnd ≤ x) : e.live t = true := by
  unfold Entry.live
  cases hx : e.expireAt with
  | none => rfl
  | some x =>
    have := h x hx
    simp only [decide_eq_true_eq]
    exact le_trans (mstime_mono t tEnd (le_of_lt ht)) this

theorem Db.find_of_window (db : Db) (k : String) (e : Entry) (tEnd t : Time)
    (ht : t < tEnd) (hk : db k = some e)
    (h : ∀ x, e.expireAt = some x → mstime tEnd ≤ x) : db.find t k = some e := by
  simp [Db.find, hk, Entry.live_of_window e tEnd t ht h]

/-- A record that expires one second after the clock reading of `t` lives to the end of a
run that started at `t0`, no later than `t`, and is no longer than a second. -/
theorem mstime_window (t0 t tEnd : Int) (hshort : tEnd ≤ t0 + 1000000000) (ht0 : t0 ≤ t) :
    mstime tEnd ≤ mstime t + 1000 := by
  unfold mstime
  omega

/-- The counts handed out are no more than the callers. -/
theorem Pool.gots_length_le (p : Pool) : p.gots.length ≤ p.callers.length :=
  List.length_filterMap_le _ _

/-- One turn of one caller, at an instant of a run that starts at `t0` and lasts no longer
than the counting window, keeps the invariant. -/
theorem Pool.Inv.step {key : String} {config : LimitConfig} {tEnd : Time} {p : Pool}
    (h : p.Inv key config tEnd) (t0 : Time) (hshort : tEnd ≤ t0 + Second)
    (who : Nat) (t : Time) (ht0 : t0 ≤ t) (ht1 : t < tEnd) :
    (p.step key config who t).Inv key config tEnd := by
  unfold Pool.step
  cases hget : p.callers[who]? with
  | none => exact h
  | some c =>
    have hmem : c ∈ p.callers := List.getElem?_mem hget
    have hgood := h.good c hmem
    have hsmall : (p.gots.length : Int) < maxInt :=
      lt_of_le_of_lt (by exact_mod_cast p.gots_length_le) h.small
    simp only
    cases c with
    | start =>
      cases hb : p.db.find t ("block:" ++ key) with
      | none =>
        have hstep : Caller.step key config t p.db .start = (.counting, p.db) := by
          simp [Caller.step, Db.EXISTS, hb]
        rw [hstep]
        exact h.of_same_gots p.db who _ _ hget rfl h.counter0 h.counter
          (fun hne => h.block (Or.inl hne)) (fun r hr => by cases hr) trivial
      | some e =>
        have hstep : Caller.step key config t p.db .start
            = (.done (.ok { Allowed := false, Remaining := 0, ResetTime := zeroTime,
                            Blocked := true }) none, p.db) := by
          simp [Caller.step, Db.EXISTS, hb]
        have hne : p.db ("block:" ++ key) ≠ none := by
          intro hnone
          rw [Db.find_none_of_absent _ _ _ hnone] at hb
          cases hb
        rw [hstep]
        exact h.of_same_gots p.db who _ _ hget rfl h.counter0 h.counter
          (fun hne => h.block (Or.inl hne)) (fun _ _ => h.block (Or.inl hne)) rfl
    | counting =>
      -- the reply to `INCR` and the record it leaves
      obtain ⟨exp, hstep, hexp⟩ : ∃ exp,
          Caller.step key config t p.db .counting
            = (.expiring (.ok ((p.gots.length : Int) + 1)),
               p.db.put ("rate:" ++ key)
                 (some { value := .int ((p.gots.length : Int) + 1), expireAt := exp }))
          ∧ ∀ e, exp = some e → mstime tEnd ≤ e := by
        rcases Nat.eq_zero_or_pos p.gots.length with hv | hv
        · refine ⟨none, ?_, fun e he => by cases he⟩
          have hfind := Db.find_none_of_absent _ t _ (h.counter0 hv)
          simp [Caller.step, Db.INCR, hfind, hv]
        · obtain ⟨exp, hc, hexp⟩ := h.counter hv
          refine ⟨exp, ?_, hexp⟩
          have hfind := Db.find_of_window _ _ _ tEnd t ht1 hc hexp
          have hr : ¬ ((p.gots.length : Int) < minInt ∨ maxInt < (p.gots.length : Int)) := by
            unfold minInt
            unfold maxInt at hsmall ⊢
            omega
          have hne : ¬ (p.gots.length : Int) = maxInt := ne_of_lt hsmall
          simp [Caller.step, Db.INCR, hfind, hr, hne]
      rw [hstep]
      dsimp only
      have hperm := filterMap_set_new Caller.got p.callers who _
        (.expiring (.ok ((p.gots.length : Int) + 1))) _ hget rfl rfl
      have hlen : ∀ db : Db, (Pool.gots ⟨db,
          p.callers.set who (.expiring (.ok ((p.gots.length : Int) + 1)))⟩).length
          = p.gots.length + 1 := by
        intro db
        have := hperm.length_eq
        simpa [Pool.gots] using this
      refine ⟨?_, ?_, ?_, ?_, ?_, ?_⟩
      · rw [hlen, oneTo_succ]
        refine hperm.trans ?_
        refine (List.Perm.cons _ h.perm).trans ?_
        exact (List.perm_append_singleton _ _).symm
      · simpa using h.small
      · rw [hlen]; intro h0; omega
      · rw [hlen]
        intro _
        refine ⟨exp, ?_, hexp⟩
        dsimp only
        simp
      · rw [hlen]
        dsimp only
        rw [Db.put_other _ _ _ _ (block_ne_rate _ _)]
        rintro (hb | ⟨x, hx, r, hr⟩)
        · have := h.block (Or.inl hb)
          push_cast
          omega
        · rcases List.mem_or_eq_of_mem_set hx with hx | hx
          · have := h.block (Or.inr ⟨x, hx, r, hr⟩)
            push_cast
            omega
          · rw [hx] at hr; cases hr
      · intro x hx
        rcases List.mem_or_eq_of_mem_set hx with hx | hx
        · exact h.good x hx
        · rw [hx]; exact ⟨_, rfl⟩
    | expiring r =>
      obtain ⟨n, rfl⟩ := hgood
      have hnmem : n ∈ p.gots := List.mem_filterMap.mpr ⟨_, hmem, rfl⟩
      have hn := (mem_oneTo _ _).mp (h.perm.mem_iff.mp hnmem)
      have hv : 0 < p.gots.length := List.length_pos_of_mem hnmem
      obtain ⟨exp, hc, hexp⟩ := h.counter hv
      have hfind := Db.find_of_window _ _ _ tEnd t ht1 hc hexp
      have hdb : (p.db.EXPIRE t ("rate:" ++ key) Second).2
          = p.db.put ("rate:" ++ key)
              (some { value := .int p.gots.length, expireAt := some (mstime t + 1000) }) := by
        rw [Db.EXPIRE_Second _ _ _ _ hfind]
      have hcounter : 0 < p.gots.length →
          ∃ exp, (p.db.put ("rate:" ++ key)
              (some { value := .int p.gots.length, expireAt := some (mstime t + 1000) }))
              ("rate:" ++ key) = some { value := .int p.gots.length, expireAt := exp }
            ∧ ∀ e, exp = some e → mstime tEnd ≤ e := by
        intro _
        refine ⟨some (mstime t + 1000), by simp, ?_⟩
        intro e he
        cases he
        exact mstime_window t0 t tEnd hshort ht0
      have hbk : (p.db.put ("rate:" ++ key)
          (some { value := .int p.gots.length, expireAt := some (mstime t + 1000) }))
          ("block:" ++ key) = p.db ("block:" ++ key) :=
        Db.put_other _ _ _ _ (block_ne_rate _ _)
      have hblock : (p.db.put ("rate:" ++ key)
          (some { value := .int p.gots.length, expireAt := some (mstime t + 1000) }))
          ("block:" ++ key) ≠ none → config.RPS < p.gots.length := by
        rw [hbk]
        exact fun hne => h.block (Or.inl hne)
      by_cases hlim : config.RPS < n
      · have hstep : Caller.step key config t p.db (.expiring (.ok n))
            = (.blocking n (t + Second), p.db.put ("rate:" ++ key)
                (some { value := .int p.gots.length, expireAt := some (mstime t + 1000) })) := by
          rw [← hdb]
          by_cases h1 : 1 < n
          · simp [Caller.step, h1, hlim]
          · have : n = 1 := by omega
            subst this
            simp [Caller.step, hlim]
        rw [hstep]
        dsimp only
        exact h.of_same_gots _ who _ _ hget rfl (fun h0 => by omega) hcounter hblock
          (fun r hr => by cases hr) hlim
      · obtain ⟨rem, hstep⟩ : ∃ rem, Caller.step key config t p.db (.expiring (.ok n))
            = (.done (.ok { Allowed := true, Remaining := rem,
                            ResetTime := t + Second, Blocked := false }) (some n),
               p.db.put ("rate:" ++ key)
                (some { value := .int p.gots.length, expireAt := some (mstime t + 1000) })) := by
          rw [← hdb]
          by_cases h1 : 1 < n
          · exact ⟨max 0 (wrapInt (config.RPS - n)),
              by simp [Caller.step, h1, hlim, clamp_eq_max]⟩
          · have : n = 1 := by omega
            subst this
            exact ⟨max 0 (wrapInt (config.RPS - 1)),
              by simp [Caller.step, hlim, clamp_eq_max]⟩
        rw [hstep]
        dsimp only
        refine h.of_same_gots _ who _ _ hget rfl (fun h0 => by omega) hcounter hblock
          (fun r hr => by cases hr) ?_
        exact ⟨rem, t + Second, by simp [not_lt.mp hlim]⟩
    | blocking n rt =>
      have hnmem : n ∈ p.gots := List.mem_filterMap.mpr ⟨_, hmem, rfl⟩
      have hn := (mem_oneTo _ _).mp (h.perm.mem_iff.mp hnmem)
      have hlim : config.RPS < n := hgood
      have hstep : Caller.step key config t p.db (.blocking n rt)
          = (.done (.ok { Allowed := false, Remaining := 0, ResetTime := rt,
                          Blocked := false }) (some n),
             p.db.SET t ("block:" ++ key) (.str "blocked") config.BlockTime) := rfl
      rw [hstep]
      dsimp only
      have hck : (p.db.SET t ("block:" ++ key) (.str "blocked") config.BlockTime)
          ("rate:" ++ key) = p.db ("rate:" ++ key) :=
        Db.SET_other _ _ _ _ _ _ (rate_ne_block _ _)
      refine h.of_same_gots _ who _ _ hget rfl ?_ ?_ ?_ ?_ ?_
      · rw [hck]; exact h.counter0
      · rw [hck]; exact h.counter
      · intro _
        omega
      · intro r hr
        cases hr
      · exact ⟨0, rt, by simp [not_le.mpr hlim]⟩
    | done r got =>
      have hstep : Caller.step key config t p.db (.done r got) = (.done r got, p.db) := rfl
      rw [hstep]
      exact h.of_same_gots p.db who _ _ hget rfl h.counter0 h.counter
        (fun hne => h.block (Or.inl hne))
        (fun r' hr => h.block (Or.inr ⟨_, hmem, r', hr⟩)) hgood

/-- Every interleaving whose turns fall between `t0` and `tEnd`, no further apart than the
counting window, keeps the invariant. -/
theorem Pool.Inv.run (key : String) (config : LimitConfig) (t0 tEnd : Time)
    (hshort : tEnd ≤ t0 + Second) :
    ∀ (sched : List (Nat × Time)) (p : Pool), p.Inv key config tEnd →
      (∀ turn ∈ sched, t0 ≤ turn.2 ∧ turn.2 < tEnd) →
      (Pool.run key config sched p).Inv key config tEnd := by
  intro sched
  induction sched with
  | nil => intro p h _; exact h
  | cons turn rest ih =>
    intro p h hwin
    obtain ⟨who, t⟩ := turn
    have ht := hwin (who, t) (List.mem_cons_self _ _)
    exact ih _ (h.step t0 hshort who t ht.1 ht.2) (fun x hx => hwin x (List.mem_cons_of_mem _ hx))

/-- Calls that have not started on a key without records satisfy the invariant. -/
theorem Pool.Inv.init (key : String) (config : LimitConfig) (tEnd : Time) (db : Db)
    (M : Nat) (hM : (M : Int) < maxInt)
    (hcount : db ("rate:" ++ key) = none) (hblock : db ("block:" ++ key) = none) :
    Pool.Inv key config tEnd { db := db, callers := List.replicate M .start } := by
  have hg : Pool.gots { db := db, callers := List.replicate M .start } = [] := by
    simp only [Pool.gots, List.filterMap_eq_nil_iff]
    intro c hc
    rw [List.eq_of_mem_replicate hc]
    rfl
  refine ⟨?_, ?_, ?_, ?_, ?_, ?_⟩
  · rw [hg]; exact List.Perm.refl _
  · simpa using hM
  · intro _; exact hcount
  · rw [hg]; intro h0; cases h0
  · rintro (hb | ⟨c, hc, r, hr⟩)
    · exact absurd hblock hb
    · rw [List.eq_of_mem_replicate hc] at hr
      cases hr
  · intro c hc
    rw [List.eq_of_mem_replicate hc]
    trivial

/-- No turn adds or removes a caller. -/
theorem Pool.run_length (key : String) (config : LimitConfig) :
    ∀ (sched : List (Nat × Time)) (p : Pool),
      (Pool.run key config sched p).callers.length = p.callers.length := by
  intro sched
  induction sched with
  | nil => intro p; rfl
  | cons turn rest ih =>
    intro p
    obtain ⟨who, t⟩ := turn
    show (Pool.run key config rest (p.step key config who t)).callers.length = _
    rw [ih]
    unfold Pool.step
    split
    · rfl
    · simp

theorem countP_allowed_eq (R : Int) :
    ∀ l : List Caller,
      (∀ c ∈ l, c.allowed = match c.got with
        | some n => decide (n ≤ R)
        | none => false) →
      l.countP Caller.allowed = (l.filterMap Caller.got).countP (fun n => decide (n ≤ R)) := by
  intro l
  induction l with
  | nil => intro _; rfl
  | cons a l ih =>
    intro h
    have ha := h a (List.mem_cons_self _ _)
    have hl := ih (fun c hc => h c (List.mem_cons_of_mem _ hc))
    rw [List.countP_cons, List.filterMap_cons, hl]
    cases hg : a.got with
    | none =>
      rw [hg] at ha
      simp [ha]
    | some n =>
      rw [hg] at ha
      simp only [List.countP_cons, ha]

theorem length_filterMap_of_isSome {α β : Type} (f : α → Option β) :
    ∀ l : List α, (∀ c ∈ l, (f c).isSome = true) → (l.filterMap f).length = l.length := by
  intro l
  induction l with
  | nil => intro _; rfl
  | cons a l ih =>
    intro hall
    have ha := hall a (List.mem_cons_self _ _)
    have hl := ih (fun c hc => hall c (List.mem_cons_of_mem _ hc))
    cases hg : f a with
    | none => rw [hg] at ha; cases ha
    | some n => simp [List.filterMap_cons, hg, hl]

theorem countP_denied_add (l : List Caller) (h : ∀ c ∈ l, c.denied = !c.allowed) :
    l.countP Caller.denied + l.countP Caller.allowed = l.length := by
  induction l with
  | nil => rfl
  | cons a l ih =>
    have ha := h a (List.mem_cons_self _ _)
    have hl := ih (fun c hc => h c (List.mem_cons_of_mem _ hc))
    rw [List.countP_cons, List.countP_cons, ha, List.length_cons]
    cases a.allowed <;> simp <;> omega

/-- At the end of a run, when every call has returned and there were at least `R = RPS`
callers: exactly `R` of them were allowed, the others were rejected, and no count was
handed out twice. -/
theorem Pool.Inv.final {key : String} {config : LimitConfig} {tEnd : Time} {p : Pool}
    (h : p.Inv key config tEnd) (R : Nat) (hR : config.RPS = R)
    (hdone : ∀ c ∈ p.callers, c.isDone = true) (hM : R ≤ p.callers.length) :
    p.callers.countP Caller.allowed = R
    ∧ p.callers.countP Caller.denied = p.callers.length - R
    ∧ (p.callers.filterMap Caller.got).Nodup := by
  -- what a call that has returned says, from the count it received
  have hres : ∀ c ∈ p.callers,
      (c.allowed = match c.got with
        | some n => decide (n ≤ (R : Int))
        | none => false)
      ∧ c.denied = !c.allowed := by
    intro c hc
    have hg := h.good c hc
    have hd := hdone c hc
    cases c with
    | done r got =>
      cases got with
      | none =>
        have hr : r = _ := hg
        subst hr
        exact ⟨rfl, rfl⟩
      | some n =>
        obtain ⟨rem, rt, hr⟩ := hg
        subst hr
        rw [hR]
        exact ⟨rfl, rfl⟩
    | start => cases hd
    | counting => cases hd
    | expiring r => cases hd
    | blocking n rt => cases hd
  -- at least `R` counts were handed out
  have hv : R ≤ p.gots.length := by
    by_cases hnone : ∃ c ∈ p.callers, ∃ r, c = .done r none
    · have hlt := h.block (Or.inr hnone)
      rw [hR] at hlt
      omega
    · have hall : ∀ c ∈ p.callers, (Caller.got c).isSome = true := by
        intro c hc
        have hd := hdone c hc
        cases c with
        | done r got =>
          cases got with
          | none => exact absurd ⟨_, hc, r, rfl⟩ hnone
          | some n => rfl
        | start => cases hd
        | counting => cases hd
        | expiring r => cases hd
        | blocking n rt => cases hd
      have hlen : p.gots.length = p.callers.length :=
        length_filterMap_of_isSome Caller.got p.callers hall
      omega
  have hallowed : p.callers.countP Caller.allowed = R := by
    rw [countP_allowed_eq R p.callers (fun c hc => (hres c hc).1)]
    show p.gots.countP _ = R
    rw [h.perm.countP_eq, countP_oneTo]
    omega
  refine ⟨hallowed, ?_, ?_⟩
  · have := countP_denied_add p.callers (fun c hc => (hres c hc).2)
    omega
  · show p.gots.Nodup
    exact h.perm.nodup_iff.mpr (nodup_oneTo _)

/-- Every turn brings a call closer to its return. -/
theorem Caller.step_turnsLeft (key : String) (config : LimitConfig) (t : Time) (db : Db)
    (c : Caller) : (c.step key config t db).1.turnsLeft ≤ c.turnsLeft - 1 := by
  cases c with
  | start =>
    simp only [Caller.step]
    split <;> simp [Caller.turnsLeft]
  | counting => simp [Caller.step, Caller.turnsLeft]
  | expiring r =>
    cases r with
    | error e => simp [Caller.step, Caller.turnsLeft]
    | ok n =>
      simp only [Caller.step]
      split_ifs <;> simp [Caller.turnsLeft]
  | blocking n rt => simp [Caller.step, Caller.turnsLeft]
  | done r got => simp [Caller.step, Caller.turnsLeft]

/-- After an interleaving, a caller needs at most the turns it needed before less the turns
it was given. -/
theorem Pool.run_turnsLeft (key : String) (config : LimitConfig) (i : Nat) :
    ∀ (sched : List (Nat × Time)) (p : Pool) (c : Caller), p.callers[i]? = some c →
      ∃ c', (Pool.run key config sched p).callers[i]? = some c'
        ∧ c'.turnsLeft ≤ c.turnsLeft - sched.countP (fun turn => turn.1 == i) := by
  intro sched
  induction sched with
  | nil => intro p c hc; exact ⟨c, hc, by simp⟩
  | cons turn rest ih =>
    intro p c hc
    obtain ⟨who, t⟩ := turn
    show ∃ c', (Pool.run key config rest (p.step key config who t)).callers[i]? = some c' ∧ _
    by_cases hwho : who = i
    · subst hwho
      have hstep : (p.step key config who t).callers[who]?
          = some (c.step key config t p.db).1 := by
        have hlt : who < p.callers.length := by
          by_contra hge
          rw [List.getElem?_eq_none (by omega)] at hc
          cases hc
        simp only [Pool.step, hc]
        exact List.getElem?_set_self hlt
      obtain ⟨c', hc', hle⟩ := ih _ _ hstep
      refine ⟨c', hc', ?_⟩
      have h1 := Caller.step_turnsLeft key config t p.db c
      simp only [List.countP_cons, beq_self_eq_true, if_true]
      omega
    · have hstep : (p.step key config who t).callers[i]? = some c := by
        unfold Pool.step
        split
        · exact hc
        · simp only
          rw [List.getElem?_set_ne hwho]
          exact hc
      obtain ⟨c', hc', hle⟩ := ih _ _ hstep
      refine ⟨c', hc', ?_⟩
      have hne : (who == i) = false := by simpa using hwho
      simp only [List.countP_cons, hne]
      simpa using hle

/-- When each of the `M` callers is given four turns or more, every call returns. -/
theorem Pool.run_done (key : String) (config : LimitConfig) (db : Db) (M : Nat)
    (sched : List (Nat × Time))
    (hfair : ∀ i, i < M → 4 ≤ sched.countP (fun turn => turn.1 == i)) :
    ∀ c ∈ (Pool.run key config sched
      { db := db, callers := List.replicate M .start }).callers, c.isDone = true := by
  intro c hc
  obtain ⟨i, hi⟩ := List.mem_iff_getElem?.mp hc
  have hlen := Pool.run_length key config sched { db := db, callers := List.replicate M .start }
  simp only [List.length_replicate] at hlen
  have hiM : i < M := by
    by_contra hge
    rw [List.getElem?_eq_none (by omega)] at hi
    cases hi
  have h0 : (Pool.mk db (List.replicate M Caller.start)).callers[i]? = some .start := by
    simp [List.getElem?_replicate, hiM]
  obtain ⟨c', hc', hle⟩ := Pool.run_turnsLeft key config i sched _ _ h0
  rw [hi] at hc'
  cases hc'
  have h4 := hfair i hiM
  have hzero : c.turnsLeft = 0 := by
    have hstart : Caller.start.turnsLeft = 4 := rfl
    rw [hstart] at hle
    omega
  cases c with
  | done r got => rfl
  | start => cases hzero
  | counting => cases hzero
  | expiring r => cases hzero
  | blocking n rt => cases hzero

/-- The turns of `Caller.step` are the steps of `Check` on the Redis backend: a call that
takes its turns with nobody in between returns what `Check` returns, and leaves the
keyspace that `Check` leaves. -/
theorem Caller.alone_eq_Check (key : String) (config : LimitConfig) (t : Time) (db : Db)
    (sent : List (List Cmd)) :
    ∃ got, Caller.alone key config t db
      = (.done (Check RedisStrategy t { db := db, faults := [], sent := sent } key config).1 got,
         (Check RedisStrategy t { db := db, faults := [], sent := sent } key config).2.db) := by
  unfold Caller.alone
  cases hb : db.find t ("block:" ++ key) with
  | some e =>
    refine ⟨none, ?_⟩
    simp [Caller.step, Db.EXISTS, hb, Check, RedisStrategy, RedisStrategy.IsBlocked,
      Client.roundTrip]
  | none =>
    have h1 : Caller.step key config t db .start = (.counting, db) := by
      simp [Caller.step, Db.EXISTS, hb]
    rw [h1]
    dsimp only
    rcases hincr : db.INCR t ("rate:" ++ key) with ⟨r, db1⟩
    have h2 : Caller.step key config t db .counting = (.expiring r, db1) := by
      simp [Caller.step, hincr]
    rw [h2]
    dsimp only
    cases r with
    | error err =>
      refine ⟨none, ?_⟩
      simp [Caller.step, Check, RedisStrategy, RedisStrategy.IsBlocked,
        RedisStrategy.Increment, Client.roundTrip, Db.EXISTS, hb, hincr]
    | ok newVal =>
      refine ⟨some newVal, ?_⟩
      generalize hdb2 : (db1.EXPIRE t ("rate:" ++ key) Second).2 = db2
      by_cases hlim : config.RPS < (if newVal ≤ 1 then 1 else newVal)
      · have h3 : Caller.step key config t db1 (.expiring (.ok newVal))
            = (.blocking newVal (t + Second), db2) := by
          simp [Caller.step, hlim, hdb2]
        rw [h3]
        dsimp only
        simp [Caller.step, Check, RedisStrategy, RedisStrategy.IsBlocked,
          RedisStrategy.Increment, RedisStrategy.Block, Client.roundTrip, Db.EXISTS, hb,
          hincr, hdb2, hlim]
      · have h3 : Caller.step key config t db1 (.expiring (.ok newVal))
            = (.done (.ok { Allowed := true,
                            Remaining := max 0 (wrapInt
                              (config.RPS - (if newVal ≤ 1 then 1 else newVal))),
                            ResetTime := t + Second, Blocked := false }) (some newVal),
               db2) := by
          simp [Caller.step, hlim, hdb2, clamp_eq_max]
        rw [h3]
        dsimp only
        simp [Caller.step, Check, RedisStrategy, RedisStrategy.IsBlocked,
          RedisStrategy.Increment, RedisStrategy.Block, Client.roundTrip, Db.EXISTS, hb,
          hincr, hdb2, hlim, clamp_eq_max]

end Interleavings

section Responses

theorem find?_filter_ne_self (l : List (String × String)) (name : String) :
    (l.filter (fun kv => kv.1 != name)).find? (fun kv => kv.1 == name) = none := by
  rw [List.find?_eq_none]
  intro x hx
  have := (List.mem_filter.mp hx).2
  simpa using this

theorem find?_filter_ne_other (name other : String) (h : other ≠ name) :
    ∀ l : List (String × String),
      (l.filter (fun kv => kv.1 != other)).find? (fun kv => kv.1 == name)
        = l.find? (fun kv => kv.1 == name) := by
  intro l
  induction l with
  | nil => rfl
  | cons a l ih =>
    have hbeq : (other == name) = false := by simpa using h
    by_cases ha : a.1 = other
    · simp [List.filter_cons, List.find?_cons, ha, hbeq, ih]
    · by_cases hn : a.1 = name
      · have hno : ¬ name = other := fun e => ha (hn.trans e)
        simp [List.filter_cons, List.find?_cons, hn, hno]
      · simp [List.filter_cons, List.find?_cons, ha, hn, ih]

/-- A header that was set reads as the value it was set to. -/
theorem Context.respGet_Header_same (c : Context) (name value : String) :
    (c.Header name value).respGet name = some value := by
  simp [Context.respGet, Context.Header, List.find?_append, find?_filter_ne_self]

/-- Setting a header leaves the others as they read. -/
theorem Context.respGet_Header_other (c : Context) (name other value : String)
    (h : other ≠ name) : (c.Header other value).respGet name = c.respGet name := by
  have hne : (other == name) = false := by simpa using h
  simp only [Context.respGet, Context.Header, List.find?_append,
    find?_filter_ne_other name other h, List.find?_cons, hne, List.find?_nil]
  cases c.respHeader.find? (fun kv => kv.1 == name) <;> rfl

/-- Writing a JSON body leaves every header but the content type as it reads. -/
theorem Context.respGet_JSON (c : Context) (code : Nat) (obj : List (String × JSONValue))
    (name : String) (h : "Content-Type" ≠ name) :
    (c.JSON code obj).respGet name = c.respGet name := by
  unfold Context.JSON
  by_cases hany : c.respHeader.any (fun kv => kv.1 == "Content-Type") = true
  · simp only [hany, if_true]
    rfl
  · simp only [hany]
    exact Context.respGet_Header_other c name "Content-Type" _ h

/-- Aborting the chain leaves the headers as they read. -/
theorem Context.respGet_Abort (c : Context) (name : String) :
    c.Abort.respGet name = c.respGet name := rfl

end Responses

section FloatSeconds

theorem binaryDigitsAux_pos : ∀ (fuel n : Nat), 0 < n → n ≤ fuel → 0 < binaryDigitsAux fuel n := by
  intro fuel
  cases fuel with
  | zero => intro n h1 h2; omega
  | succ fuel =>
    intro n h1 _
    have hn : n ≠ 0 := by omega
    simp [binaryDigitsAux, hn]

theorem binaryDigitsAux_le : ∀ (fuel n j : Nat), n < 2 ^ j → binaryDigitsAux fuel n ≤ j := by
  intro fuel
  induction fuel with
  | zero => intro n j _; simp [binaryDigitsAux]
  | succ fuel ih =>
    intro n j h
    by_cases hn : n = 0
    · simp [binaryDigitsAux, hn]
    · cases j with
      | zero => simp at h; omega
      | succ j =>
        have h2 : n / 2 < 2 ^ j := by
          rw [pow_succ] at h
          omega
        have := ih (n / 2) j h2
        simp [binaryDigitsAux, hn]
        exact this

theorem binaryDigits_pos (n : Nat) (h : 0 < n) : 0 < binaryDigits n :=
  binaryDigitsAux_pos n n h (le_refl n)

theorem binaryDigits_le (n j : Nat) (h : n < 2 ^ j) : binaryDigits n ≤ j :=
  binaryDigitsAux_le n n j h

theorem le_roundHalfEven (n d L : Nat) (hd : 0 < d) (h : L * d ≤ n) : L ≤ roundHalfEven n d := by
  have h1 : L ≤ n / d := (Nat.le_div_iff_mul_le hd).mpr h
  unfold roundHalfEven
  split <;> omega

theorem roundHalfEven_le (n d K : Nat) (hd : 0 < d) (h : n ≤ K * d) : roundHalfEven n d ≤ K := by
  have h1 : n / d ≤ K := by
    calc n / d ≤ K * d / d := Nat.div_le_div_right h
      _ = K := Nat.mul_div_cancel K hd
  unfold roundHalfEven
  rcases Nat.lt_or_ge (n / d) K with h2 | h2
  · split <;> omega
  · have h3 : n / d = K := le_antisymm h1 h2
    have h4 : d * (n / d) + n % d = n := Nat.div_add_mod n d
    rw [h3] at h4
    have h5 : n % d = 0 := by
      have : d * K = K * d := Nat.mul_comm d K
      omega
    have hc : 2 * (n % d) < d ∨ (2 * (n % d) = d ∧ (n / d) % 2 = 0) := by
      left; omega
    rw [if_pos hc]
    exact h1

theorem roundHalfEven_lt (n d K : Nat) (hd : 0 < d) (h : 2 * n + d < 2 * (K * d)) :
    roundHalfEven n d < K := by
  have h4 : d * (n / d) + n % d = n := Nat.div_add_mod n d
  have hK : 0 < K := by
    rcases Nat.eq_zero_or_pos K with h0 | h0
    · subst h0; simp at h
    · exact h0
  have h1 : n / d < K := by
    rw [Nat.div_lt_iff_lt_mul hd]
    omega
  unfold roundHalfEven
  rcases Nat.lt_or_ge (n / d + 1) K with h2 | h2
  · split <;> omega
  · have h3 : n / d = K - 1 := by omega
    have h5 : d * (K - 1) + d = K * d := by
      have : K = (K - 1) + 1 := by omega
      calc d * (K - 1) + d = d * ((K - 1) + 1) := by ring
        _ = d * K := by rw [← this]
        _ = K * d := Nat.mul_comm d K
    rw [h3] at h4
    have hc : 2 * (n % d) < d ∨ (2 * (n % d) = d ∧ (n / d) % 2 = 0) := by
      left; omega
    rw [if_pos hc]
    exact h1

theorem roundFloat64_of_lt (n d : Nat) (h : n < d) :
    roundFloat64 n d
      = { mant := roundHalfEven (n * 2 ^ (52 + binaryDigits ((d - 1) / n))) d,
          exp := -((52 + binaryDigits ((d - 1) / n) : Nat) : Int) } := by
  have hle : ¬ d ≤ n := by omega
  have e1 : (52 - -(binaryDigits ((d - 1) / n) : Int)).toNat = 52 + binaryDigits ((d - 1) / n) := by
    omega
  have e2 : (-(binaryDigits ((d - 1) / n) : Int) - 52).toNat = 0 := by omega
  simp only [roundFloat64, leadingExp, hle, if_false, e1, e2, pow_zero, Nat.mul_one]
  congr 1
  push_cast
  omega

theorem roundFloat64_of_ge (n d : Nat) (h : d ≤ n) (hb : binaryDigits (n / d) ≤ 53)
    (hb1 : 1 ≤ binaryDigits (n / d)) :
    roundFloat64 n d
      = { mant := roundHalfEven (n * 2 ^ (53 - binaryDigits (n / d))) d,
          exp := -((53 - binaryDigits (n / d) : Nat) : Int) } := by
  have e1 : (52 - ((binaryDigits (n / d) : Int) - 1)).toNat = 53 - binaryDigits (n / d) := by
    omega
  have e2 : ((binaryDigits (n / d) : Int) - 1 - 52).toNat = 0 := by omega
  simp only [roundFloat64, leadingExp, h, if_true, e1, e2, pow_zero, Nat.mul_one]
  congr 1
  omega


theorem round_arith_le (sec mc A B : Nat) (hmc : mc ≤ B) :
    (sec * B + mc) * A ≤ (sec + 1) * A * B := by
  have h1 : mc * A ≤ B * A := Nat.mul_le_mul_right A hmc
  nlinarith [h1]

theorem round_arith_lt (sec mc A B P : Nat) (hB : B = 1073741824 * P) (hA : 536870912 ≤ A)
    (hmc : mc + P + 1 ≤ B) :
    2 * ((sec * B + mc) * A) + B < 2 * ((sec + 1) * A * B) := by
  have h1 : (mc + P + 1) * A ≤ B * A := Nat.mul_le_mul_right A hmc
  have h2 : 536870912 * P ≤ A * P := Nat.mul_le_mul_right P hA
  nlinarith [h1, h2]

/-- The quotient `nsec / 10^9` of a fraction of a second, as a `float64`. -/
theorem divNat_nsec (nsec : Nat) (h0 : 0 < nsec) (h1 : nsec < 1000000000) :
    ∃ mc k : Nat, Float64.divNat nsec 1000000000 = { mant := mc, exp := -(k : Int) }
      ∧ 53 ≤ k ∧ mc + 2 ^ (k - 30) + 1 ≤ 2 ^ k := by
  have hb : 0 < binaryDigits ((1000000000 - 1) / nsec) := by
    apply binaryDigits_pos
    exact Nat.div_pos (by omega) h0
  refine ⟨roundHalfEven (nsec * 2 ^ (52 + binaryDigits ((1000000000 - 1) / nsec))) 1000000000,
    52 + binaryDigits ((1000000000 - 1) / nsec), ?_, by omega, ?_⟩
  · have hne : nsec ≠ 0 := by omega
    simp only [Float64.divNat, hne, if_false]
    exact roundFloat64_of_lt nsec 1000000000 h1
  · generalize hk : 52 + binaryDigits ((1000000000 - 1) / nsec) = k
    have hk53 : 53 ≤ k := by omega
    have hB : 2 ^ k = 1073741824 * 2 ^ (k - 30) := by
      have : k = 30 + (k - 30) := by omega
      calc 2 ^ k = 2 ^ (30 + (k - 30)) := by rw [← this]
        _ = 2 ^ 30 * 2 ^ (k - 30) := pow_add 2 30 (k - 30)
        _ = 1073741824 * 2 ^ (k - 30) := by norm_num
    have hP : 16 ≤ 2 ^ (k - 30) := by
      calc 16 = 2 ^ 4 := by norm_num
        _ ≤ 2 ^ (k - 30) := Nat.pow_le_pow_right (by norm_num) (by omega)
    have hn : nsec * 2 ^ k ≤ 999999999 * 2 ^ k := Nat.mul_le_mul_right _ (by omega)
    have hle := roundHalfEven_le (nsec * 2 ^ k) 1000000000 (2 ^ k - 2 ^ (k - 30) - 1)
      (by norm_num) (by omega)
    omega

theorem toInt_add (sec mc k : Nat) (hk : 1 ≤ k) (hsec : sec + 1 < 2 ^ 52) (hmc : mc ≤ 2 ^ k) :
    (sec : Int) ≤ (Float64.add { mant := sec, exp := 0 } { mant := mc, exp := -(k : Int) }).toInt
    ∧ (Float64.add { mant := sec, exp := 0 } { mant := mc, exp := -(k : Int) }).toInt ≤ sec + 1
    ∧ (30 ≤ k → sec < 2 ^ 24 → mc + 2 ^ (k - 30) + 1 ≤ 2 ^ k →
        (Float64.add { mant := sec, exp := 0 } { mant := mc, exp := -(k : Int) }).toInt = sec) := by
  have hB0 : 0 < 2 ^ k := Nat.pos_pow_of_pos k (by norm_num)
  by_cases hm0 : mc = 0
  · have : Float64.add { mant := sec, exp := 0 } { mant := mc, exp := -(k : Int) }
        = { mant := sec, exp := 0 } := by
      simp [Float64.add, hm0]
    rw [this]
    simp [Float64.toInt]
  by_cases hs0 : sec = 0
  · have : Float64.add { mant := sec, exp := 0 } { mant := mc, exp := -(k : Int) }
        = { mant := mc, exp := -(k : Int) } := by
      simp [Float64.add, hm0, hs0]
    rw [this]
    have hneg : ¬ (0 : Int) ≤ -(k : Int) := by omega
    have e1 : (- -(k : Int)).toNat = k := by omega
    simp only [Float64.toInt, hneg, if_false, e1]
    subst hs0
    have hdiv : mc / 2 ^ k ≤ 1 := by
      apply Nat.div_le_of_le_mul
      omega
    refine ⟨by positivity, by exact_mod_cast hdiv, ?_⟩
    intro _ _ hstrict
    have hlt : mc < 2 ^ k := by
      generalize 2 ^ (k - 30) = P at hstrict
      generalize 2 ^ k = B at hstrict ⊢
      omega
    have : mc / 2 ^ k = 0 := Nat.div_eq_of_lt hlt
    exact_mod_cast this
  -- both summands are positive: the exact sum is rounded
  have e1 : ((0 : Int) - min 0 (-(k : Int))).toNat = k := by omega
  have e2 : (-(k : Int) - min 0 (-(k : Int))).toNat = 0 := by omega
  have e3 : (min (0 : Int) (-(k : Int))).toNat = 0 := by omega
  have e4 : (-(min (0 : Int) (-(k : Int)))).toNat = k := by omega
  have hadd : Float64.add { mant := sec, exp := 0 } { mant := mc, exp := -(k : Int) }
      = roundFloat64 (sec * 2 ^ k + mc) (2 ^ k) := by
    simp only [Float64.add, hm0, hs0, if_false, e1, e2, e3, e4, pow_zero, Nat.mul_one]
  rw [hadd]
  have hge : 2 ^ k ≤ sec * 2 ^ k + mc := by
    have : 1 * 2 ^ k ≤ sec * 2 ^ k := Nat.mul_le_mul_right _ (by omega)
    omega
  -- the whole part of the sum
  have hf1 : sec ≤ (sec * 2 ^ k + mc) / 2 ^ k := by
    rw [Nat.le_div_iff_mul_le hB0]
    omega
  have hf2 : (sec * 2 ^ k + mc) / 2 ^ k ≤ sec + 1 := by
    apply Nat.div_le_of_le_mul
    have : 2 ^ k * (sec + 1) = sec * 2 ^ k + 2 ^ k := by ring
    omega
  have hb1 : 1 ≤ binaryDigits ((sec * 2 ^ k + mc) / 2 ^ k) :=
    binaryDigits_pos _ (by omega)
  have hb2 : binaryDigits ((sec * 2 ^ k + mc) / 2 ^ k) ≤ 52 :=
    binaryDigits_le _ 52 (by omega)
  rw [roundFloat64_of_ge _ _ hge (by omega) hb1]
  generalize hs : 53 - binaryDigits ((sec * 2 ^ k + mc) / 2 ^ k) = s
  have hs1 : 1 ≤ s := by omega
  have hA0 : 0 < 2 ^ s := Nat.pos_pow_of_pos s (by norm_num)
  have hneg : ¬ (0 : Int) ≤ -(s : Int) := by omega
  have e5 : (- -(s : Int)).toNat = s := by omega
  simp only [Float64.toInt, hneg, if_false, e5]
  have hL := le_roundHalfEven ((sec * 2 ^ k + mc) * 2 ^ s) (2 ^ k) (sec * 2 ^ s) hB0
    (by nlinarith [Nat.zero_le (mc * 2 ^ s)])
  have hK := roundHalfEven_le ((sec * 2 ^ k + mc) * 2 ^ s) (2 ^ k) ((sec + 1) * 2 ^ s) hB0
    (round_arith_le sec mc (2 ^ s) (2 ^ k) hmc)
  have hS : 30 ≤ k → sec < 2 ^ 24 → mc + 2 ^ (k - 30) + 1 ≤ 2 ^ k →
      roundHalfEven ((sec * 2 ^ k + mc) * 2 ^ s) (2 ^ k) < (sec + 1) * 2 ^ s := by
    intro hk30 hsec24 hstrict
    have hB : 2 ^ k = 1073741824 * 2 ^ (k - 30) := by
      have : k = 30 + (k - 30) := by omega
      calc 2 ^ k = 2 ^ (30 + (k - 30)) := by rw [← this]
        _ = 2 ^ 30 * 2 ^ (k - 30) := pow_add 2 30 (k - 30)
        _ = 1073741824 * 2 ^ (k - 30) := by norm_num
    have hlt : mc < 2 ^ k := by
      generalize 2 ^ (k - 30) = P at hstrict
      generalize 2 ^ k = B at hstrict ⊢
      omega
    have hfeq : (sec * 2 ^ k + mc) / 2 ^ k = sec := by
      rw [Nat.add_comm, Nat.add_mul_div_right _ _ hB0, Nat.div_eq_of_lt hlt, Nat.zero_add]
    have hb3 : binaryDigits ((sec * 2 ^ k + mc) / 2 ^ k) ≤ 24 :=
      binaryDigits_le _ 24 (by rw [hfeq]; exact hsec24)
    have hA : 536870912 ≤ 2 ^ s := by
      calc 536870912 = 2 ^ 29 := by norm_num
        _ ≤ 2 ^ s := Nat.pow_le_pow_right (by norm_num) (by omega)
    exact roundHalfEven_lt _ _ _ hB0
      (round_arith_lt sec mc (2 ^ s) (2 ^ k) (2 ^ (k - 30)) hB hA hstrict)
  generalize roundHalfEven ((sec * 2 ^ k + mc) * 2 ^ s) (2 ^ k) = m at hL hK hS ⊢
  have h1 : sec ≤ m / 2 ^ s := (Nat.le_div_iff_mul_le hA0).mpr hL
  have h2 : m / 2 ^ s ≤ sec + 1 := by
    apply Nat.div_le_of_le_mul
    rw [Nat.mul_comm]
    exact hK
  refine ⟨by exact_mod_cast h1, by exact_mod_cast h2, ?_⟩
  intro hk30 hsec24 hstrict
  have h3 : m / 2 ^ s < sec + 1 := (Nat.div_lt_iff_lt_mul hA0).mpr (hS hk30 hsec24 hstrict)
  have h4 : m / 2 ^ s = sec := by omega
  exact_mod_cast h4


/-- What `int(d.Seconds())` is for a duration of `d ≥ 0` nanoseconds, `d ≤ 2^63`: the whole
seconds of `d` or one more; the whole seconds exactly, when `d` is a whole number of seconds
or is under `2^24` seconds. -/
theorem Seconds_toInt (d : Nat) (hd : d ≤ 9223372036854775808) :
    ((d / 1000000000 : Nat) : Int) ≤ (Seconds d).toInt
    ∧ (Seconds d).toInt ≤ ((d / 1000000000 : Nat) : Int) + 1
    ∧ (d % 1000000000 = 0 → (Seconds d).toInt = ((d / 1000000000 : Nat) : Int))
    ∧ (d < 16777216 * 1000000000 → (Seconds d).toInt = ((d / 1000000000 : Nat) : Int)) := by
  have hsec : d / 1000000000 + 1 < 2 ^ 52 := by
    have : d / 1000000000 ≤ 9223372036 := by omega
    have : (2 : Nat) ^ 52 = 4503599627370496 := by norm_num
    omega
  have hsec53 : d / 1000000000 < 2 ^ 53 := by
    have : (2 : Nat) ^ 53 = 9007199254740992 := by norm_num
    have : (2 : Nat) ^ 52 = 4503599627370496 := by norm_num
    omega
  have hx : Float64.ofNat (d / 1000000000) = { mant := d / 1000000000, exp := 0 } := by
    simp only [Float64.ofNat, hsec53, if_true]
  unfold Seconds
  rw [hx]
  by_cases hn : d % 1000000000 = 0
  · have hy : Float64.divNat (d % 1000000000) 1000000000 = { mant := 0, exp := 0 } := by
      simp [Float64.divNat, hn]
    rw [hy]
    have hz : Float64.add { mant := d / 1000000000, exp := 0 } { mant := 0, exp := 0 }
        = { mant := d / 1000000000, exp := 0 } := by
      simp [Float64.add]
    rw [hz]
    simp [Float64.toInt]
  · obtain ⟨mc, k, hy, hk, hstrict⟩ := divNat_nsec (d % 1000000000) (by omega)
      (Nat.mod_lt _ (by norm_num))
    rw [hy]
    have hmc : mc ≤ 2 ^ k := by
      generalize 2 ^ (k - 30) = P at hstrict
      generalize 2 ^ k = B at hstrict ⊢
      omega
    obtain ⟨h1, h2, h3⟩ := toInt_add (d / 1000000000) mc k (by omega) hsec hmc
    refine ⟨h1, h2, fun h => absurd h hn, ?_⟩
    intro hsmall
    have h24 : d / 1000000000 < 2 ^ 24 := by
      have : (2 : Nat) ^ 24 = 16777216 := by norm_num
      omega
    exact h3 (by omega) h24 hstrict

/-- What `int(d.Seconds())` is for a duration that fits a Go `int64`: it differs from the
duration by less than a second; it is the duration itself when that is a whole number of
seconds; and it is the duration in seconds, rounded toward zero, when that is under `2^24`
seconds in absolute value. -/
theorem wholeSeconds_spec (d : Int) (hmin : -9223372036854775808 ≤ d)
    (hmax : d ≤ 9223372036854775807) :
    (-1000000000 < wholeSeconds d * 1000000000 - d
      ∧ wholeSeconds d * 1000000000 - d < 1000000000)
    ∧ (d % 1000000000 = 0 → wholeSeconds d * 1000000000 = d)
    ∧ (-(16777216 * 1000000000) < d → d < 16777216 * 1000000000 →
        wholeSeconds d = Int.tdiv d 1000000000) := by
  by_cases hneg : d < 0
  · obtain ⟨h1, h2, h3, h4⟩ := Seconds_toInt (-d).toNat (by omega)
    have hw : wholeSeconds d = -(Seconds (-d).toNat).toInt := by
      simp only [wholeSeconds, hneg, if_true]
    rw [hw]
    generalize (Seconds (-d).toNat).toInt = r at h1 h2 h3 h4
    have hc : (((-d).toNat / 1000000000 : Nat) : Int) = (-d) / 1000000000 := by
      omega
    rw [hc] at h1 h2 h3 h4
    have ht : Int.tdiv d 1000000000 = -((-d) / 1000000000) := by
      have e : d = -(-d) := by omega
      rw [e, Int.neg_tdiv, Int.tdiv_eq_ediv (by omega) (by decide)]
      simp
    refine ⟨?_, ?_, ?_⟩
    · by_cases hz : (-d).toNat % 1000000000 = 0
      · have := h3 hz
        omega
      · omega
    · intro hz
      have := h3 (by omega)
      omega
    · intro ha hb
      rw [ht]
      have := h4 (by omega)
      omega
  · obtain ⟨h1, h2, h3, h4⟩ := Seconds_toInt d.toNat (by omega)
    have hw : wholeSeconds d = (Seconds d.toNat).toInt := by
      simp only [wholeSeconds, hneg, if_false]
    rw [hw]
    generalize (Seconds d.toNat).toInt = r at h1 h2 h3 h4
    have hc : ((d.toNat / 1000000000 : Nat) : Int) = d / 1000000000 := by
      omega
    rw [hc] at h1 h2 h3 h4
    have ht : Int.tdiv d 1000000000 = d / 1000000000 :=
      Int.tdiv_eq_ediv (by omega) (by decide)
    refine ⟨?_, ?_, ?_⟩
    · by_cases hz : d.toNat % 1000000000 = 0
      · have := h3 hz
        omega
      · omega
    · intro hz
      have := h3 (by omega)
      omega
    · intro ha hb
      rw [ht]
      have := h4 (by omega)
      omega

end FloatSeconds

section Claims

/-- C1, as the claim states it, fails for the largest limit a Go `int` can hold,
`N = 2^63 - 1`: no count can exceed it.  After `N` checks of a fresh key at one instant, all
allowed, the counter holds the largest `int64`; the `INCR` of the next check is refused by
Redis, and the check returns that error, not a result with allowed=false. -/
theorem C1_counterexample :
    (List.replicate 9223372036854775807 (0 : Time)).length = 9223372036854775807
    ∧ maxInt = 9223372036854775807
    ∧ (runChecks RedisStrategy "ip:1.2.3.4" { RPS := maxInt, BlockTime := 10 * Second }
        (List.replicate 9223372036854775807 0 ++ [0]) Client.fresh).1.getLast?
      = some (.error (Errorf "erro ao incrementar contador: "
          (Errorf "erro no pipeline Redis: "
            (.mk "ERR increment or decrement would overflow")))) := by
  refine ⟨List.length_replicate _ _, rfl, ?_⟩
  apply runChecks_redis_overflow
  · rfl
  · rw [List.length_replicate]
    rfl
  · rfl
  · exact fun _ _ => rfl
  · exact fun _ _ => rfl
  · rw [← List.replicate_succ', List.replicate_succ]
    exact withinWindow_replicate 0 _

/-- C1, amended.  On the Redis backend with a network that does not fail, for a key whose
counter and block records, if any, have expired, and `RPS = N` with `1 ≤ N < 2^63 - 1`: `N`
sequential checks, none of them a second or more after the one before, are each allowed and
not blocked, the `i`-th with remaining `N - i`; the next check (again within the window) is
rejected, not blocked, with remaining 0; every later check made before the block record
expires is rejected as blocked.  The block record lives for the time the client sent with
it, `setMillis BlockTime` milliseconds, and for ever when `BlockTime` is not positive. -/
theorem C1_sequential_checks (c : Client) (key : String) (config : LimitConfig) (N : Nat)
    (ts : List Time) (tx : Time) (later : List Time)
    (hN : 1 ≤ N) (hmax : (N : Int) < maxInt) (hRPS : config.RPS = N) (hlen : ts.length = N)
    (hnet : c.faults = [])
    (hcount : ∀ t ∈ ts ++ [tx], c.db.find t ("rate:" ++ key) = none)
    (hblock : ∀ t ∈ ts ++ [tx], c.db.find t ("block:" ++ key) = none)
    (hwin : withinWindow (ts ++ [tx]) = true)
    (hlater : ∀ t ∈ later, 0 < config.BlockTime →
      t < tx + setMillis config.BlockTime * Millisecond) :
    (runChecks RedisStrategy key config (ts ++ tx :: later) c).1
      = (ts.enumFrom 1).map
          (fun p => .ok { Allowed := true, Remaining := (N : Int) - (p.1 : Int),
                          ResetTime := p.2 + Second, Blocked := false })
        ++ .ok { Allowed := false, Remaining := 0, ResetTime := tx + Second, Blocked := false }
        :: later.map (fun _ => .ok { Allowed := false, Remaining := 0, ResetTime := zeroTime,
                                     Blocked := true }) := by
  cases ts with
  | nil => simp at hlen; omega
  | cons t1 ts =>
    have hbf : c.db.find t1 ("block:" ++ key) = none := hblock t1 (by simp)
    have hcf : c.db.find t1 ("rate:" ++ key) = none := hcount t1 (by simp)
    have hstep := Check_redis_first t1 c key config hnet hbf hcf (by omega)
    have hmaxI : (N : Int) < maxInt := hmax
    unfold maxInt at hmaxI
    have hrem : max 0 (wrapInt (config.RPS - 1)) = config.RPS - 1 := by
      rw [wrapInt_of_range _ (by unfold minInt; omega) (by unfold maxInt; omega)]
      omega
    rw [hrem] at hstep
    simp only [List.cons_append, runChecks_cons, hstep, List.enumFrom_cons, List.map_cons]
    have hb2 : ∀ t ∈ ts ++ [tx], (c.db.put ("rate:" ++ key)
        (some { value := .int 1, expireAt := some (mstime t1 + 1000) })).find t
          ("block:" ++ key) = none := by
      intro t ht
      rw [Db.find_put_other _ _ _ _ _ (block_ne_rate _ _)]
      exact hblock t (List.mem_cons_of_mem _ ht)
    have hc2 : (c.db.put ("rate:" ++ key)
        (some { value := .int 1, expireAt := some (mstime t1 + 1000) })) ("rate:" ++ key)
        = some { value := .int ((1 : Nat) : Int), expireAt := some (mstime t1 + 1000) } := by
      simp
    have hrun := runChecks_redis_from key config tx later (by rw [hRPS]; exact hmax) hlater ts
      { db := c.db.put ("rate:" ++ key)
                 (some { value := .int 1, expireAt := some (mstime t1 + 1000) }),
        faults := c.faults,
        sent := c.sent ++ [[.EXISTS ("block:" ++ key)],
                 [.INCR ("rate:" ++ key), .EXPIRE ("rate:" ++ key) Second]] }
      1 t1 hnet hb2 hc2 hwin (by simp at hlen; rw [hRPS]; push_cast; omega)
    rw [hrun, hRPS]
    simp

/-- C1 (amended) at the scenario of the specification: five checks of `"ip:1.2.3.4"` a tenth
of a second apart with `RPS = 5` and a block of ten seconds, then a sixth and two more. -/
theorem C1_sequential_checks_witness :
    (runChecks RedisStrategy "ip:1.2.3.4" { RPS := 5, BlockTime := 10 * Second }
        ([0, 100000000, 200000000, 300000000, 400000000] ++ 500000000
          :: [600000000, 9000000000]) Client.fresh).1
      = [.ok { Allowed := true, Remaining := 4, ResetTime := 1000000000, Blocked := false },
         .ok { Allowed := true, Remaining := 3, ResetTime := 1100000000, Blocked := false },
         .ok { Allowed := true, Remaining := 2, ResetTime := 1200000000, Blocked := false },
         .ok { Allowed := true, Remaining := 1, ResetTime := 1300000000, Blocked := false },
         .ok { Allowed := true, Remaining := 0, ResetTime := 1400000000, Blocked := false },
         .ok { Allowed := false, Remaining := 0, ResetTime := 1500000000, Blocked := false },
         .ok { Allowed := false, Remaining := 0, ResetTime := zeroTime, Blocked := true },
         .ok { Allowed := false, Remaining := 0, ResetTime := zeroTime, Blocked := true }] :=
  C1_sequential_checks Client.fresh "ip:1.2.3.4" { RPS := 5, BlockTime := 10 * Second } 5
    [0, 100000000, 200000000, 300000000, 400000000] 500000000 [600000000, 9000000000]
    (by decide) (by decide) rfl rfl rfl (fun _ _ => rfl) (fun _ _ => rfl) (by decide)
    (by decide)

/-- C2. On the Redis backend, when `IsBlocked(key)` answers true, `Check` returns
allowed=false, blocked=true, remaining=0, and leaves the store as it was: the keyspace is
unchanged (so are the counter value and both expiries), and the one round trip made carried
the `EXISTS` of the block key only, no increment and no block call. -/
theorem C2_blocked_fast_reject (now : Time) (c : Client) (key : String) (config : LimitConfig)
    (hblocked : (RedisStrategy.IsBlocked now c key).1 = .ok true) :
    (Check RedisStrategy now c key config).1
        = .ok { Allowed := false, Remaining := 0, ResetTime := zeroTime, Blocked := true }
      ∧ (Check RedisStrategy now c key config).2.db = c.db
      ∧ (Check RedisStrategy now c key config).2.sent
          = c.sent ++ [[.EXISTS ("block:" ++ key)]] := by
  have h1 : RedisStrategy.IsBlocked now c key
      = (.ok true, (RedisStrategy.IsBlocked now c key).2) := by
    rw [← hblocked]
  have h := Check_of_blocked RedisStrategy now c _ key config h1
  rw [h]
  refine ⟨rfl, ?_, ?_⟩
  · exact RedisStrategy.IsBlocked_db now c key
  · exact RedisStrategy.IsBlocked_sent now c key

/-- C2 at a key blocked for ten seconds, checked one second into the block. -/
theorem C2_blocked_fast_reject_witness :
    (Check RedisStrategy Second (RedisStrategy.Block 0 Client.fresh "ip:1.2.3.4" (10 * Second)).2
        "ip:1.2.3.4" { RPS := 5, BlockTime := 10 * Second }).1
        = .ok { Allowed := false, Remaining := 0, ResetTime := zeroTime, Blocked := true }
      ∧ (Check RedisStrategy Second
          (RedisStrategy.Block 0 Client.fresh "ip:1.2.3.4" (10 * Second)).2
          "ip:1.2.3.4" { RPS := 5, BlockTime := 10 * Second }).2.db
          = (RedisStrategy.Block 0 Client.fresh "ip:1.2.3.4" (10 * Second)).2.db
      ∧ (Check RedisStrategy Second
          (RedisStrategy.Block 0 Client.fresh "ip:1.2.3.4" (10 * Second)).2
          "ip:1.2.3.4" { RPS := 5, BlockTime := 10 * Second }).2.sent
          = (RedisStrategy.Block 0 Client.fresh "ip:1.2.3.4" (10 * Second)).2.sent
            ++ [[.EXISTS ("block:" ++ "ip:1.2.3.4")]] :=
  C2_blocked_fast_reject Second (RedisStrategy.Block 0 Client.fresh "ip:1.2.3.4" (10 * Second)).2
    "ip:1.2.3.4" { RPS := 5, BlockTime := 10 * Second } (by decide)

/-- C3, as the claim states it, fails.  On the Redis backend, a counter seeded with `-5`
through `Set` is incremented to `newCount = -4` with `existedBefore = false`, and `Check`
with `RPS = 3` answers remaining `2`, not `max(0, 3 - (-4)) = 7`.  For a storage whose
increment returns `newCount = 5`, `Check` with `RPS = 3` allows the request with remaining
`2` when the flag is false and rejects it when the flag is true: the verdict follows the
flag.  And for a storage whose increment returns the smallest `int`, `-2^63`, with the flag
true, `Check` with `RPS = 1` answers remaining `0`, not `max(0, 1 - (-2^63)) = 2^63 + 1`:
the difference is taken in Go's `int` and wraps around. -/
theorem C3_counterexample :
    ((RedisStrategy.IsBlocked 0 (RedisStrategy.Set 0 Client.fresh "rate:k" (-5) Second).2
        "k").1 = .ok false
      ∧ (RedisStrategy.Increment 0
          (RedisStrategy.IsBlocked 0 (RedisStrategy.Set 0 Client.fresh "rate:k" (-5) Second).2
            "k").2 "rate:k" Second).1 = .ok (-4, false)
      ∧ (Check RedisStrategy 0 (RedisStrategy.Set 0 Client.fresh "rate:k" (-5) Second).2 "k"
          { RPS := 3, BlockTime := 10 * Second }).1
          = .ok { Allowed := true, Remaining := 2, ResetTime := Second, Blocked := false }
      ∧ (2 : Int) ≠ max 0 (3 - (-4)))
    ∧ ((@Check Unit
          { Get := fun _ s _ => (.ok 0, s), Set := fun _ s _ _ _ => (none, s),
            Increment := fun _ s _ _ => (.ok (5, false), s),
            IsBlocked := fun _ s _ => (.ok false, s), Block := fun _ s _ _ => (none, s) }
          0 () "k" { RPS := 3, BlockTime := 10 * Second }).1
          = .ok { Allowed := true, Remaining := 2, ResetTime := Second, Blocked := false }
      ∧ (@Check Unit
          { Get := fun _ s _ => (.ok 0, s), Set := fun _ s _ _ _ => (none, s),
            Increment := fun _ s _ _ => (.ok (5, true), s),
            IsBlocked := fun _ s _ => (.ok false, s), Block := fun _ s _ _ => (none, s) }
          0 () "k" { RPS := 3, BlockTime := 10 * Second }).1
          = .ok { Allowed := false, Remaining := 0, ResetTime := Second, Blocked := false }
      ∧ decide ((5 : Int) ≤ 3) = false)
    ∧ ((@Check Unit
          { Get := fun _ s _ => (.ok 0, s), Set := fun _ s _ _ _ => (none, s),
            Increment := fun _ s _ _ => (.ok (minInt, true), s),
            IsBlocked := fun _ s _ => (.ok false, s), Block := fun _ s _ _ => (none, s) }
          0 () "k" { RPS := 1, BlockTime := 10 * Second }).1
          = .ok { Allowed := true, Remaining := 0, ResetTime := Second, Blocked := false }
      ∧ (0 : Int) ≠ max 0 (1 - minInt)) := by
  decide

/-- C3, amended.  For any storage, when the key is not blocked, the increment of the
counting key returns `(newCount, existedBefore)`, and the block call (made only when the
limit is exceeded) does not fail: `Check` returns blocked=false and allowed = (count ≤ RPS),
where `count` is `newCount` when `existedBefore` is true and `1` when it is false; and
remaining is `max(0, RPS - count)` whenever the difference fits a Go `int` (it is at most
`2^63 - 1`: always so for `count ≥ 0`), and `0` when it does not, the difference of the two
`int`s then wrapping around to a negative value.  So whenever a false flag comes with
`newCount = 1`, the verdict is the one of `newCount` alone. -/
theorem C3_verdict_from_increment {σ : Type} (st : StorageStrategy σ) (now : Time)
    (s s1 s2 : σ) (key : String) (config : LimitConfig) (newCount : Int) (existed : Bool)
    (h1 : st.IsBlocked now s key = (.ok false, s1))
    (h2 : st.Increment now s1 ("rate:" ++ key) Second = (.ok (newCount, existed), s2))
    (h3 : config.RPS < (if existed then newCount else 1) →
      (st.Block now s2 key config.BlockTime).1 = none) :
    ∃ r, (Check st now s key config).1 = .ok r
      ∧ r.Blocked = false
      ∧ r.Allowed = decide ((if existed then newCount else 1) ≤ config.RPS)
      ∧ (config.RPS - (if existed then newCount else 1) ≤ maxInt →
          r.Remaining = max 0 (config.RPS - (if existed then newCount else 1)))
      ∧ (config.RPS ≤ maxInt → minInt ≤ (if existed then newCount else 1) →
          maxInt < config.RPS - (if existed then newCount else 1) → r.Remaining = 0)
      ∧ ((existed = false → newCount = 1) →
          r.Allowed = decide (newCount ≤ config.RPS)
          ∧ (config.RPS - newCount ≤ maxInt → r.Remaining = max 0 (config.RPS - newCount))) := by
  have hcount : (existed = false → newCount = 1) →
      (if existed then newCount else 1) = newCount := by
    intro h
    cases existed
    · simp [h rfl]
    · rfl
  generalize hcnt : (if existed then newCount else 1) = count at h3 hcount ⊢
  by_cases hlim : count ≤ config.RPS
  · have h := Check_of_within st now s s1 s2 key config newCount existed h1 h2
      (by rw [hcnt]; exact hlim)
    rw [hcnt] at h
    refine ⟨_, congrArg Prod.fst h, rfl, ?_, ?_, ?_, ?_⟩
    · simp [hlim]
    · intro hfit
      show max 0 (wrapInt (config.RPS - count)) = max 0 (config.RPS - count)
      rw [wrapInt_of_range _ (by unfold minInt; omega) hfit]
    · intro hR hC hover
      show max 0 (wrapInt (config.RPS - count)) = 0
      have := wrapInt_neg_of_overflow (config.RPS - count) hover (by omega)
      omega
    · intro hflag
      rw [← hcount hflag]
      refine ⟨by simp [hlim], ?_⟩
      intro hfit
      show max 0 (wrapInt (config.RPS - count)) = max 0 (config.RPS - count)
      rw [wrapInt_of_range _ (by unfold minInt; omega) hfit]
  · have hlt : config.RPS < count := by omega
    have hb : st.Block now s2 key config.BlockTime
        = (none, (st.Block now s2 key config.BlockTime).2) := by
      rw [← h3 hlt]
    have h := Check_of_exceeded st now s s1 s2 _ key config newCount existed h1 h2
      (by rw [hcnt]; exact hlt) hb
    refine ⟨_, congrArg Prod.fst h, rfl, ?_, ?_, ?_, ?_⟩
    · simp [hlim]
    · intro _
      show (0 : Int) = max 0 _
      omega
    · intro _ _ _
      rfl
    · intro hflag
      rw [← hcount hflag]
      refine ⟨by simp [hlim], ?_⟩
      intro _
      show (0 : Int) = max 0 _
      omega

/-- C3 (amended) at the second request of a window on the Redis backend. -/
theorem C3_verdict_from_increment_witness :
    ∃ r, (Check RedisStrategy 1 (Check RedisStrategy 0 Client.fresh "k"
            { RPS := 3, BlockTime := 10 * Second }).2 "k"
            { RPS := 3, BlockTime := 10 * Second }).1 = .ok r
      ∧ r.Blocked = false
      ∧ r.Allowed = true
      ∧ r.Remaining = 1 := by
  obtain ⟨r, hr, hB, hA, hrem, -, -⟩ := C3_verdict_from_increment RedisStrategy 1
    (Check RedisStrategy 0 Client.fresh "k" { RPS := 3, BlockTime := 10 * Second }).2
    _ _ "k" { RPS := 3, BlockTime := 10 * Second } 2 true
    (by rfl) (by rfl) (by decide)
  exact ⟨r, hr, hB, hA, hrem (by decide)⟩

/-- C4, as the claim states it, fails.  When the round trip of `IsBlocked` fails with the
error `e` ("connection refused"), `Check` does not return `e`: it returns an error with
another message, which wraps `e`. -/
theorem C4_counterexample :
    (RedisStrategy.IsBlocked 0
        { db := Db.empty, faults := [some (.mk "connection refused")], sent := [] } "k").1
        = .error (.mk "connection refused")
      ∧ (Check RedisStrategy 0
          { db := Db.empty, faults := [some (.mk "connection refused")], sent := [] } "k"
          { RPS := 3, BlockTime := 10 * Second }).1
          ≠ .error (.mk "connection refused")
      ∧ (Check RedisStrategy 0
          { db := Db.empty, faults := [some (.mk "connection refused")], sent := [] } "k"
          { RPS := 3, BlockTime := 10 * Second }).1
          = .error (.wrap "erro ao verificar bloqueio: connection refused"
              (.mk "connection refused")) := by
  decide

/-- C4, amended.  For any storage: whenever `IsBlocked`, `Increment` or `Block`, called by
`Check`, fails with an error `e`, `Check` returns no `CheckResult` but an error that wraps
`e` (`errors.Unwrap` gives `e` back) and whose message is the message of `e` after the name
of the step that failed; the store is left as the failed operation left it. -/
theorem C4_store_error_is_wrapped {σ : Type} (st : StorageStrategy σ) (now : Time) (s : σ)
    (key : String) (config : LimitConfig) (e : GoError) :
    (∀ s1, st.IsBlocked now s key = (.error e, s1) →
        Check st now s key config = (.error (Errorf "erro ao verificar bloqueio: " e), s1))
    ∧ (∀ s1 s2, st.IsBlocked now s key = (.ok false, s1) →
        st.Increment now s1 ("rate:" ++ key) Second = (.error e, s2) →
        Check st now s key config = (.error (Errorf "erro ao incrementar contador: " e), s2))
    ∧ (∀ s1 s2 s3 newCount existed, st.IsBlocked now s key = (.ok false, s1) →
        st.Increment now s1 ("rate:" ++ key) Second = (.ok (newCount, existed), s2) →
        config.RPS < (if existed then newCount else 1) →
        st.Block now s2 key config.BlockTime = (some e, s3) →
        Check st now s key config = (.error (Errorf "erro ao bloquear chave: " e), s3))
    ∧ (∀ pre, (Errorf pre e).Unwrap = some e ∧ (Errorf pre e).Error = pre ++ e.Error) := by
  refine ⟨?_, ?_, ?_, ?_⟩
  · intro s1 h1
    simp [Check, h1]
  · intro s1 s2 h1 h2
    simp [Check, h1, h2]
  · intro s1 s2 s3 newCount existed h1 h2 h3 h4
    cases existed <;> simp at h3 <;> simp [Check, h1, h2, h3, h4]
  · intro pre
    exact ⟨rfl, rfl⟩

/-- C4 (amended) on the Redis backend, for a network that fails at the first, at the second
and at the third round trip of a check (the last with `RPS = 0`, so that the first request
already exceeds the limit). -/
theorem C4_store_error_is_wrapped_witness :
    Check RedisStrategy 0
        { db := Db.empty, faults := [some (.mk "i/o timeout")], sent := [] } "k"
        { RPS := 0, BlockTime := 10 * Second }
      = (.error (Errorf "erro ao verificar bloqueio: " (.mk "i/o timeout")),
         { db := Db.empty, faults := [], sent := [[.EXISTS "block:k"]] })
    ∧ (Check RedisStrategy 0
        { db := Db.empty, faults := [none, some (.mk "i/o timeout")], sent := [] } "k"
        { RPS := 0, BlockTime := 10 * Second }).1
      = .error (Errorf "erro ao incrementar contador: "
          (Errorf "erro no pipeline Redis: " (.mk "i/o timeout")))
    ∧ (Check RedisStrategy 0
        { db := Db.empty, faults := [none, none, some (.mk "i/o timeout")], sent := [] } "k"
        { RPS := 0, BlockTime := 10 * Second }).1
      = .error (Errorf "erro ao bloquear chave: "
          (Errorf "erro ao bloquear no Redis: " (.mk "i/o timeout"))) :=
  ⟨(C4_store_error_is_wrapped RedisStrategy 0
      { db := Db.empty, faults := [some (.mk "i/o timeout")], sent := [] } "k"
      { RPS := 0, BlockTime := 10 * Second } (.mk "i/o timeout")).1 _ rfl,
   congrArg Prod.fst ((C4_store_error_is_wrapped RedisStrategy 0
      { db := Db.empty, faults := [none, some (.mk "i/o timeout")], sent := [] } "k"
      { RPS := 0, BlockTime := 10 * Second }
      (Errorf "erro no pipeline Redis: " (.mk "i/o timeout"))).2.1 _ _ rfl rfl),
   congrArg Prod.fst ((C4_store_error_is_wrapped RedisStrategy 0
      { db := Db.empty, faults := [none, none, some (.mk "i/o timeout")], sent := [] } "k"
      { RPS := 0, BlockTime := 10 * Second }
      (Errorf "erro ao bloquear no Redis: " (.mk "i/o timeout"))).2.2.1 _ _ _ 1 false
        rfl rfl (by decide) rfl)⟩

/-- C5. On the Redis backend (network that does not fail, each command atomic), for twenty
concurrent calls of `Check` on one key without counter and block record, with `RPS = 10`:
in every interleaving of their commands that gives each call its turns (four, at most, take
it to its return), and that lasts (from `t0` to before `tEnd`) no longer than the block
duration and no longer than the one-second counting window, so that the counter record does
not expire during the run, every call returns, exactly ten are allowed and exactly ten are
rejected, and no two calls receive the same count from the increment.  (The turns are those
of `Check`: a call that takes its turns with nobody in between returns what `Check`
returns.) -/
theorem C5_concurrent_checks (key : String) (blockTime : Duration) (db : Db) (t0 tEnd : Time)
    (sched : List (Nat × Time))
    (hcount : db ("rate:" ++ key) = none) (hblock : db ("block:" ++ key) = none)
    (hwin : ∀ turn ∈ sched, t0 ≤ turn.2 ∧ turn.2 < tEnd)
    (hBT : tEnd ≤ t0 + blockTime) (hshort : tEnd ≤ t0 + Second)
    (hfair : ∀ i, i < 20 → 4 ≤ sched.countP (fun turn => turn.1 == i)) :
    (∀ c ∈ (Pool.run key { RPS := 10, BlockTime := blockTime } sched
        { db := db, callers := List.replicate 20 .start }).callers, c.isDone = true)
    ∧ (Pool.run key { RPS := 10, BlockTime := blockTime } sched
        { db := db, callers := List.replicate 20 .start }).callers.countP Caller.allowed = 10
    ∧ (Pool.run key { RPS := 10, BlockTime := blockTime } sched
        { db := db, callers := List.replicate 20 .start }).callers.countP Caller.denied = 10
    ∧ ((Pool.run key { RPS := 10, BlockTime := blockTime } sched
        { db := db, callers := List.replicate 20 .start }).callers.filterMap Caller.got).Nodup
    ∧ ∀ (t : Time) (d : Db), ∃ got,
        Caller.alone key { RPS := 10, BlockTime := blockTime } t d
          = (.done (Check RedisStrategy t { db := d, faults := [], sent := [] } key
                { RPS := 10, BlockTime := blockTime }).1 got,
             (Check RedisStrategy t { db := d, faults := [], sent := [] } key
                { RPS := 10, BlockTime := blockTime }).2.db) := by
  have hdone := Pool.run_done key { RPS := 10, BlockTime := blockTime } db 20 sched hfair
  have hinv := Pool.Inv.run key { RPS := 10, BlockTime := blockTime } t0 tEnd hshort sched _
    (Pool.Inv.init key _ tEnd db 20 (by decide) hcount hblock) hwin
  have hlen := Pool.run_length key { RPS := 10, BlockTime := blockTime } sched
    { db := db, callers := List.replicate 20 .start }
  simp only [List.length_replicate] at hlen
  have h := hinv.final 10 rfl hdone (by omega)
  rw [hlen] at h
  exact ⟨hdone, h.1, h.2.1, h.2.2, fun t d => Caller.alone_eq_Check key _ t d []⟩

set_option maxRecDepth 1000000 in
/-- C5 at the interleaving in which the twenty calls take their turns in a round, one
nanosecond apart, four rounds long: all twenty pass the block check and increment, the
counts 1 to 10 are allowed, the counts 11 to 20 are rejected. -/
theorem C5_concurrent_checks_witness :
    (Pool.run "concurrent-test" { RPS := 10, BlockTime := 5 * Second }
        ((List.range 80).map (fun (i : Nat) => (i % 20, (i : Int))))
        { db := Db.empty, callers := List.replicate 20 .start }).callers.countP Caller.allowed
      = 10
    ∧ (Pool.run "concurrent-test" { RPS := 10, BlockTime := 5 * Second }
        ((List.range 80).map (fun (i : Nat) => (i % 20, (i : Int))))
        { db := Db.empty, callers := List.replicate 20 .start }).callers.countP Caller.denied
      = 10 :=
  have h := C5_concurrent_checks "concurrent-test" (5 * Second) Db.empty 0 80
    ((List.range 80).map (fun (i : Nat) => (i % 20, (i : Int))))
    rfl rfl (by decide) (by decide) (by decide) (by decide)
  ⟨h.2.1, h.2.2.1⟩

/-- C7. On the Redis backend, for keys `A ≠ B`, a check of `A`, whatever its outcome and
whatever the network does, leaves the counter record and the block record of `B` as they
were; so, at any instant and under the same behaviour of the network, `Get` of the counting
key of `B` and `IsBlocked(B)` answer after the check what they answered before it. -/
theorem C7_key_isolation (now : Time) (c : Client) (A B : String) (config : LimitConfig)
    (hAB : A ≠ B) :
    (Check RedisStrategy now c A config).2.db ("rate:" ++ B) = c.db ("rate:" ++ B)
    ∧ (Check RedisStrategy now c A config).2.db ("block:" ++ B) = c.db ("block:" ++ B)
    ∧ ∀ (t : Time) (net : List (Option GoError)),
        (RedisStrategy.Get t { (Check RedisStrategy now c A config).2 with faults := net }
            ("rate:" ++ B)).1
          = (RedisStrategy.Get t { c with faults := net } ("rate:" ++ B)).1
        ∧ (RedisStrategy.IsBlocked t
            { (Check RedisStrategy now c A config).2 with faults := net } B).1
          = (RedisStrategy.IsBlocked t { c with faults := net } B).1 := by
  have hne : "rate:" ++ B ≠ "rate:" ++ A :=
    fun h => hAB (append_left_cancel _ _ _ h).symm
  have hne2 : "block:" ++ B ≠ "block:" ++ A :=
    fun h => hAB (append_left_cancel _ _ _ h).symm
  have hr := Check_redis_db_other now c A ("rate:" ++ B) config hne (rate_ne_block _ _)
  have hb := Check_redis_db_other now c A ("block:" ++ B) config (block_ne_rate _ _) hne2
  refine ⟨hr, hb, ?_⟩
  intro t net
  constructor
  · simp only [RedisStrategy.Get_fst, Db.GET, Db.find, hr]
  · simp only [RedisStrategy.IsBlocked_fst, Db.find, hb]

/-- C7 at the check that blocks `"ip:10.0.0.1"`, seen from `"ip:10.0.0.2"`, whose counter
is at 1. -/
theorem C7_key_isolation_witness :
    (RedisStrategy.Get 2 (Check RedisStrategy 1
        (Check RedisStrategy 0 Client.fresh "ip:10.0.0.2" { RPS := 0, BlockTime := Second }).2
        "ip:10.0.0.1" { RPS := 0, BlockTime := Second }).2 "rate:ip:10.0.0.2").1 = .ok 1
    ∧ (Check RedisStrategy 1
        (Check RedisStrategy 0 Client.fresh "ip:10.0.0.2" { RPS := 0, BlockTime := Second }).2
        "ip:10.0.0.1" { RPS := 0, BlockTime := Second }).2.db ("rate:" ++ "ip:10.0.0.2")
      = (Check RedisStrategy 0 Client.fresh "ip:10.0.0.2"
          { RPS := 0, BlockTime := Second }).2.db ("rate:" ++ "ip:10.0.0.2") :=
  ⟨by decide,
   (C7_key_isolation 1
      (Check RedisStrategy 0 Client.fresh "ip:10.0.0.2" { RPS := 0, BlockTime := Second }).2
      "ip:10.0.0.1" "ip:10.0.0.2" { RPS := 0, BlockTime := Second } (by decide)).1⟩

/-- C8. On the Redis backend, for every identity key `k`: `IsBlocked` and `Block` address
exactly the key `"block:" ++ k`; the commands of a `Check` address exactly `"block:" ++ k`
(`EXISTS`, `SET`) and `"rate:" ++ k` (`INCR`, `EXPIRE`, the increment of the counting key);
and no counting key is a block key. -/
theorem C8_key_namespaces (now : Time) (c : Client) (k : String) (config : LimitConfig)
    (d : Duration) :
    (RedisStrategy.IsBlocked now c k).2.sent = c.sent ++ [[.EXISTS ("block:" ++ k)]]
    ∧ (RedisStrategy.Block now c k d).2.sent
        = c.sent ++ [[.SET ("block:" ++ k) (.str "blocked") d]]
    ∧ ((Check RedisStrategy now c k config).2.sent
          = c.sent ++ [[.EXISTS ("block:" ++ k)]]
      ∨ (Check RedisStrategy now c k config).2.sent
          = c.sent ++ [[.EXISTS ("block:" ++ k)],
              [.INCR ("rate:" ++ k), .EXPIRE ("rate:" ++ k) Second]]
      ∨ (Check RedisStrategy now c k config).2.sent
          = c.sent ++ [[.EXISTS ("block:" ++ k)],
              [.INCR ("rate:" ++ k), .EXPIRE ("rate:" ++ k) Second],
              [.SET ("block:" ++ k) (.str "blocked") config.BlockTime]])
    ∧ ∀ k1 k2 : String, "rate:" ++ k1 ≠ "block:" ++ k2 :=
  ⟨RedisStrategy.IsBlocked_sent now c k, RedisStrategy.Block_sent now c k d,
   Check_redis_sent now c k config, rate_ne_block⟩

/-- C9. For every request, the handler of the middleware equals the response to one call
of `Check` on one key and one configuration: when the `API_KEY` header is not empty, the key
is `"token:"` followed by the header value and the configuration is the token profile,
whatever the client address; otherwise the key is `"ip:"` followed by the client address
and the configuration is the address profile.  The key of a request bearing a token is no
`"ip:"` key. -/
theorem C9_identity_resolution {σ : Type} (rlm : RateLimiterMiddleware σ) (lib : GoLib)
    (next : Context → Context) (now : Time) (s : σ) (c : Context) :
    (c.GetHeader "API_KEY" ≠ "" →
      Middleware rlm lib next now s c
        = Middleware.respond
            { RPS := rlm.config.RateLimitTokenRPS,
              BlockTime := rlm.config.RateLimitTokenBlockTime } next c
            (Check rlm.limiter now s ("token:" ++ c.GetHeader "API_KEY")
              { RPS := rlm.config.RateLimitTokenRPS,
                BlockTime := rlm.config.RateLimitTokenBlockTime })
      ∧ ∀ address : String, "token:" ++ c.GetHeader "API_KEY" ≠ "ip:" ++ address)
    ∧ (c.GetHeader "API_KEY" = "" →
      Middleware rlm lib next now s c
        = Middleware.respond
            { RPS := rlm.config.RateLimitIPRPS,
              BlockTime := rlm.config.RateLimitIPBlockTime } next c
            (Check rlm.limiter now s ("ip:" ++ getClientIP lib c)
              { RPS := rlm.config.RateLimitIPRPS,
                BlockTime := rlm.config.RateLimitIPBlockTime })) := by
  constructor
  · intro htok
    refine ⟨?_, ?_⟩
    · simp [Middleware, Middleware.identity, htok]
    · intro address h
      have h2 := congrArg String.data h
      have e1 : ("token:" : String).data = ['t', 'o', 'k', 'e', 'n', ':'] := rfl
      have e2 : ("ip:" : String).data = ['i', 'p', ':'] := rfl
      simp [String.data_append, e1, e2] at h2
  · intro htok
    simp [Middleware, Middleware.identity, htok]

/-- C9 at a request that carries both a token and a forwarded address, for the limits of
the middleware test (2 requests per second for addresses, 5 for tokens): it is counted
under `"token:test-token"`, and the address has no counter. -/
theorem C9_identity_resolution_witness :
    (Middleware { limiter := RedisStrategy,
                  config := { RateLimitIPRPS := 2, RateLimitIPBlockTime := 5 * Second,
                              RateLimitTokenRPS := 5,
                              RateLimitTokenBlockTime := 5 * Second } }
        GoLib.plain id 0 Client.fresh
        (Context.incoming { Header := [("API_KEY", "test-token"),
                                       ("X-Forwarded-For", "10.0.0.1")],
                            RemoteAddr := "10.0.0.1:4711" })).ctx.respHeader
      = [("X-RateLimit-Limit", "5"), ("X-RateLimit-Remaining", "4"),
         ("X-RateLimit-Reset", "1")]
    ∧ (Middleware { limiter := RedisStrategy,
                    config := { RateLimitIPRPS := 2, RateLimitIPBlockTime := 5 * Second,
                                RateLimitTokenRPS := 5,
                                RateLimitTokenBlockTime := 5 * Second } }
        GoLib.plain id 0 Client.fresh
        (Context.incoming { Header := [("API_KEY", "test-token"),
                                       ("X-Forwarded-For", "10.0.0.1")],
                            RemoteAddr := "10.0.0.1:4711" })).store.sent
      = [[.EXISTS "block:token:test-token"],
         [.INCR "rate:token:test-token", .EXPIRE "rate:token:test-token" Second]] := by
  have h := (C9_identity_resolution
    { limiter := RedisStrategy,
      config := { RateLimitIPRPS := 2, RateLimitIPBlockTime := 5 * Second,
                  RateLimitTokenRPS := 5, RateLimitTokenBlockTime := 5 * Second } }
    GoLib.plain id 0 Client.fresh
    (Context.incoming { Header := [("API_KEY", "test-token"),
                                   ("X-Forwarded-For", "10.0.0.1")],
                        RemoteAddr := "10.0.0.1:4711" })).1 (by decide)
  rw [h.1]
  decide

/-- C10. For every request, when `Check` returns an error the middleware lets the request
through: the context it leaves is the one the next handlers make of the request as it came
in (they are called, nothing is aborted, no status 429 and no `X-RateLimit-*` or
`Retry-After` header is written), and the error is printed. -/
theorem C10_fail_open {σ : Type} (rlm : RateLimiterMiddleware σ) (lib : GoLib)
    (next : Context → Context) (now : Time) (s : σ) (c : Context) (err : GoError)
    (herr : (Check rlm.limiter now s (Middleware.identity rlm lib c).1
      (Middleware.identity rlm lib c).2).1 = .error err) :
    (Middleware rlm lib next now s c).ctx = next c
    ∧ (Middleware rlm lib next now s c).stdout
        = ["Erro no rate limiter: " ++ err.Error ++ "\n"]
    ∧ (Middleware rlm lib id now s c).ctx.aborted = c.aborted
    ∧ (Middleware rlm lib id now s c).ctx.written = c.written
    ∧ (Middleware rlm lib id now s c).ctx.respHeader = c.respHeader := by
  have key : ∀ nxt : Context → Context, Middleware rlm lib nxt now s c
      = { ctx := nxt c,
          store := (Check rlm.limiter now s (Middleware.identity rlm lib c).1
            (Middleware.identity rlm lib c).2).2,
          stdout := ["Erro no rate limiter: " ++ err.Error ++ "\n"] } := by
    intro nxt
    show Middleware.respond _ nxt c (Check rlm.limiter now s _ _) = _
    revert herr
    rcases Check rlm.limiter now s (Middleware.identity rlm lib c).1
      (Middleware.identity rlm lib c).2 with ⟨r, s1⟩
    intro herr
    simp only at herr
    subst herr
    rfl
  rw [key next, key id]
  exact ⟨rfl, rfl, rfl, rfl, rfl⟩

/-- C10 at a request served while the Redis server cannot be reached: the handler behind
the middleware answers 200, and nothing else is written. -/
theorem C10_fail_open_witness :
    (Middleware { limiter := RedisStrategy,
                  config := { RateLimitIPRPS := 2, RateLimitIPBlockTime := 5 * Second,
                              RateLimitTokenRPS := 5,
                              RateLimitTokenBlockTime := 5 * Second } }
        GoLib.plain (fun c => c.JSON 200 [("message", .str "ok")]) 0
        { db := Db.empty, faults := [some (.mk "dial tcp: connection refused")], sent := [] }
        (Context.incoming { Header := [], RemoteAddr := "10.0.0.1" })).ctx
      = { Request := { Header := [], RemoteAddr := "10.0.0.1" },
          respHeader := [("Content-Type", "application/json; charset=utf-8")],
          written := some (200, [("message", .str "ok")]),
          aborted := false } :=
  (C10_fail_open
    { limiter := RedisStrategy,
      config := { RateLimitIPRPS := 2, RateLimitIPBlockTime := 5 * Second,
                  RateLimitTokenRPS := 5, RateLimitTokenBlockTime := 5 * Second } }
    GoLib.plain (fun c => c.JSON 200 [("message", .str "ok")]) 0
    { db := Db.empty, faults := [some (.mk "dial tcp: connection refused")], sent := [] }
    (Context.incoming { Header := [], RemoteAddr := "10.0.0.1" })
    (Errorf "erro ao verificar bloqueio: " (.mk "dial tcp: connection refused"))
    (by decide)).1

/-- C11, as the claim states it, fails for a block duration of `2^24` seconds and
`999999999` nanoseconds: the first request of an address under `RPS = 0` is rejected with
`Retry-After: 16777217` and `retry_after_seconds` 16777217, one more than the whole seconds
of the duration, `16777216`.  Go computes the seconds in `float64`, where the sum
`16777216 + 0.999999999` rounds to `16777217`. -/
theorem C11_counterexample :
    (Middleware { limiter := RedisStrategy,
                  config := { RateLimitIPRPS := 0,
                              RateLimitIPBlockTime := 16777216999999999,
                              RateLimitTokenRPS := 5,
                              RateLimitTokenBlockTime := 5 * Second } }
        GoLib.plain id 0 Client.fresh
        (Context.incoming { Header := [], RemoteAddr := "10.0.0.1" })).ctx.respGet
          "Retry-After" = some "16777217"
    ∧ (Middleware { limiter := RedisStrategy,
                    config := { RateLimitIPRPS := 0,
                                RateLimitIPBlockTime := 16777216999999999,
                                RateLimitTokenRPS := 5,
                                RateLimitTokenBlockTime := 5 * Second } }
        GoLib.plain id 0 Client.fresh
        (Context.incoming { Header := [], RemoteAddr := "10.0.0.1" })).ctx.written
      = some (429,
          [("error", .str "you have reached the maximum number of requests or actions allowed within a certain time frame"),
           ("retry_after_seconds", .num 16777217)])
    ∧ (16777216999999999 : Int) = 16777216 * Second + 999999999
    ∧ Int.tdiv 16777216999999999 Second = 16777216 := by
  decide

/-- C11, amended.  For every request whose `Check` returns a result: when it is not allowed
(blocked or not), the middleware writes status 429 with the rejection message, aborts the
chain, and gives the retry guidance of the applicable profile, the `Retry-After` header and
the body field `retry_after_seconds` both being `int(BlockTime.Seconds())`; what it leaves
does not depend on the next handlers, which are not called.  When it is allowed, the next
handlers are called on the request with the three `X-RateLimit-*` headers set, and the
middleware writes no status, aborts nothing and sets no `Retry-After`.  For every duration
`d` of the type, `int(d.Seconds())` differs from `d` by less than a second; it is `d` in
whole seconds when `d` is a whole number of seconds, and when `d` is under `2^24` seconds in
absolute value (`d` rounded toward zero). -/
theorem C11_verdict_to_response {σ : Type} (rlm : RateLimiterMiddleware σ) (lib : GoLib)
    (next : Context → Context) (now : Time) (s : σ) (c : Context) (result : CheckResult)
    (hcheck : (Check rlm.limiter now s (Middleware.identity rlm lib c).1
      (Middleware.identity rlm lib c).2).1 = .ok result) :
    (result.Allowed = false →
      (Middleware rlm lib next now s c).ctx.written
          = some (StatusTooManyRequests,
              [("error", .str "you have reached the maximum number of requests or actions allowed within a certain time frame"),
               ("retry_after_seconds",
                .num (wholeSeconds (Middleware.identity rlm lib c).2.BlockTime))])
      ∧ (Middleware rlm lib next now s c).ctx.aborted = true
      ∧ (Middleware rlm lib next now s c).ctx.respGet "Retry-After"
          = some (toString (wholeSeconds (Middleware.identity rlm lib c).2.BlockTime))
      ∧ ∀ other : Context → Context,
          Middleware rlm lib other now s c = Middleware rlm lib next now s c)
    ∧ (result.Allowed = true →
      (Middleware rlm lib next now s c).ctx
          = next (((c.Header "X-RateLimit-Limit"
                (toString (Middleware.identity rlm lib c).2.RPS)).Header
              "X-RateLimit-Remaining" (toString result.Remaining)).Header
              "X-RateLimit-Reset" (toString (Unix result.ResetTime)))
      ∧ (Middleware rlm lib id now s c).ctx.written = c.written
      ∧ (Middleware rlm lib id now s c).ctx.aborted = c.aborted
      ∧ (Middleware rlm lib id now s c).ctx.respGet "Retry-After" = c.respGet "Retry-After")
    ∧ ∀ d : Duration, minInt ≤ d → d ≤ maxInt →
        (-Second < wholeSeconds d * Second - d ∧ wholeSeconds d * Second - d < Second)
        ∧ (d % Second = 0 → wholeSeconds d * Second = d)
        ∧ (-(16777216 * Second) < d → d < 16777216 * Second →
            wholeSeconds d = Int.tdiv d Second) := by
  have hM : ∀ nxt : Context → Context, Middleware rlm lib nxt now s c
      = Middleware.respond (Middleware.identity rlm lib c).2 nxt c
          (.ok result, (Check rlm.limiter now s (Middleware.identity rlm lib c).1
            (Middleware.identity rlm lib c).2).2) := by
    intro nxt
    show Middleware.respond _ nxt c (Check rlm.limiter now s _ _) = _
    revert hcheck
    rcases Check rlm.limiter now s (Middleware.identity rlm lib c).1
      (Middleware.identity rlm lib c).2 with ⟨r, s1⟩
    intro hcheck
    simp only at hcheck
    subst hcheck
    rfl
  refine ⟨?_, ?_, ?_⟩
  · intro hA
    have hR : ∀ nxt : Context → Context, (Middleware rlm lib nxt now s c)
        = { ctx := (((((c.Header "X-RateLimit-Limit"
                (toString (Middleware.identity rlm lib c).2.RPS)).Header
              "X-RateLimit-Remaining" (toString result.Remaining)).Header
              "X-RateLimit-Reset" (toString (Unix result.ResetTime))).Header
              "Retry-After"
              (toString (wholeSeconds (Middleware.identity rlm lib c).2.BlockTime))).JSON
              StatusTooManyRequests
              [("error", .str "you have reached the maximum number of requests or actions allowed within a certain time frame"),
               ("retry_after_seconds",
                .num (wholeSeconds (Middleware.identity rlm lib c).2.BlockTime))]).Abort,
            store := (Check rlm.limiter now s (Middleware.identity rlm lib c).1
              (Middleware.identity rlm lib c).2).2,
            stdout := [] } := by
      intro nxt
      rw [hM nxt]
      simp [Middleware.respond, hA]
    refine ⟨?_, ?_, ?_, ?_⟩
    · rw [hR next]
      simp only [Context.Abort, Context.JSON]
    · rw [hR next]
      rfl
    · rw [hR next]
      dsimp only
      rw [Context.respGet_Abort, Context.respGet_JSON _ _ _ _ (by decide),
        Context.respGet_Header_same]
    · intro other
      rw [hR other, hR next]
  · intro hA
    have hR : ∀ nxt : Context → Context, (Middleware rlm lib nxt now s c)
        = { ctx := nxt (((c.Header "X-RateLimit-Limit"
                (toString (Middleware.identity rlm lib c).2.RPS)).Header
              "X-RateLimit-Remaining" (toString result.Remaining)).Header
              "X-RateLimit-Reset" (toString (Unix result.ResetTime))),
            store := (Check rlm.limiter now s (Middleware.identity rlm lib c).1
              (Middleware.identity rlm lib c).2).2,
            stdout := [] } := by
      intro nxt
      rw [hM nxt]
      simp [Middleware.respond, hA]
    refine ⟨?_, ?_, ?_, ?_⟩
    · rw [hR next]
    · rw [hR id]; rfl
    · rw [hR id]; rfl
    · rw [hR id]
      dsimp only [id]
      rw [Context.respGet_Header_other _ _ _ _ (by decide),
        Context.respGet_Header_other _ _ _ _ (by decide),
        Context.respGet_Header_other _ _ _ _ (by decide)]
  · intro d hmin hmax
    exact wholeSeconds_spec d hmin hmax

/-- C11 (amended) at the third request of an address within a second, for the limits of the
middleware test (2 requests per second, block of 5 seconds): it is answered 429, with
`Retry-After: 5` and `retry_after_seconds` 5, and the chain is aborted. -/
theorem C11_verdict_to_response_witness :
    (Middleware { limiter := RedisStrategy,
                  config := { RateLimitIPRPS := 2, RateLimitIPBlockTime := 5 * Second,
                              RateLimitTokenRPS := 5,
                              RateLimitTokenBlockTime := 5 * Second } }
        GoLib.plain (fun c => c.JSON 200 [("message", .str "ok")]) 2
        (runChecks RedisStrategy "ip:10.0.0.1" { RPS := 2, BlockTime := 5 * Second } [0, 1]
          Client.fresh).2
        (Context.incoming { Header := [], RemoteAddr := "10.0.0.1" })).ctx.written
      = some (429,
          [("error", .str "you have reached the maximum number of requests or actions allowed within a certain time frame"),
           ("retry_after_seconds", .num 5)])
    ∧ (Middleware { limiter := RedisStrategy,
                    config := { RateLimitIPRPS := 2, RateLimitIPBlockTime := 5 * Second,
                                RateLimitTokenRPS := 5,
                                RateLimitTokenBlockTime := 5 * Second } }
        GoLib.plain (fun c => c.JSON 200 [("message", .str "ok")]) 2
        (runChecks RedisStrategy "ip:10.0.0.1" { RPS := 2, BlockTime := 5 * Second } [0, 1]
          Client.fresh).2
        (Context.incoming { Header := [], RemoteAddr := "10.0.0.1" })).ctx.respGet
          "Retry-After" = some "5" :=
  have h := (C11_verdict_to_response
    { limiter := RedisStrategy,
      config := { RateLimitIPRPS := 2, RateLimitIPBlockTime := 5 * Second,
                  RateLimitTokenRPS := 5, RateLimitTokenBlockTime := 5 * Second } }
    GoLib.plain (fun c => c.JSON 200 [("message", .str "ok")]) 2
    (runChecks RedisStrategy "ip:10.0.0.1" { RPS := 2, BlockTime := 5 * Second } [0, 1]
      Client.fresh).2
    (Context.incoming { Header := [], RemoteAddr := "10.0.0.1" })
    { Allowed := false, Remaining := 0, ResetTime := 2 + Second, Blocked := false }
    (by decide)).1 rfl
  ⟨h.1, h.2.2.1⟩

/-- C12, as the claim states it, fails for the duration `-1` ns, which the go-redis client
reads as `KeepTTL`: after `Block(k, 10s)`, a `Block(k, -1ns)` one second later keeps the
expiry the first call set (10000 ms on the clock of the server), whereas `Block(k, -1ns)`
alone leaves a record without expiry; eleven seconds in, the key is no longer blocked after
the two calls, and still blocked after the one. -/
theorem C12_counterexample :
    (RedisStrategy.Block Second (RedisStrategy.Block 0 Client.fresh "k" (10 * Second)).2 "k"
        (-1)).2.db "block:k"
        = some { value := .str "blocked", expireAt := some 10000 }
    ∧ (RedisStrategy.Block Second Client.fresh "k" (-1)).2.db "block:k"
        = some { value := .str "blocked", expireAt := none }
    ∧ (RedisStrategy.IsBlocked (11 * Second)
        (RedisStrategy.Block Second (RedisStrategy.Block 0 Client.fresh "k" (10 * Second)).2
          "k" (-1)).2 "k").1 = .ok false
    ∧ (RedisStrategy.IsBlocked (11 * Second)
        (RedisStrategy.Block Second Client.fresh "k" (-1)).2 "k").1 = .ok true := by
  decide

/-- C12, amended.  On the Redis backend with a network that does not fail, for every key,
every duration `d1` and every duration `d2` other than `-1` ns (so for every `d2 ≥ 0`):
`Block(key, d1)` at `t1` and then `Block(key, d2)` at `t2` both succeed and leave the
keyspace that `Block(key, d2)` alone at `t2` leaves, with one block record for the key,
whose expiry is the one the second call sets: for a positive `d2`, the reading of the
server's clock at `t2` plus the time the client sent, `d2` in whole milliseconds (one
millisecond for a shorter `d2`); none for the others.  `IsBlocked(key)` is true right after
the first call and right after the second; for a positive `d2` it stays true until that time
has passed since `t2` and is false once the clock has passed the expiry, and for the others
it stays true for ever. -/
theorem C12_block_twice (c : Client) (key : String) (d1 d2 : Duration) (t1 t2 : Time)
    (hnet : c.faults = []) (hd2 : d2 ≠ KeepTTL) :
    (RedisStrategy.Block t1 c key d1).1 = none
    ∧ (RedisStrategy.Block t2 (RedisStrategy.Block t1 c key d1).2 key d2).1 = none
    ∧ (RedisStrategy.Block t2 (RedisStrategy.Block t1 c key d1).2 key d2).2.db
        = (RedisStrategy.Block t2 c key d2).2.db
    ∧ (RedisStrategy.Block t2 (RedisStrategy.Block t1 c key d1).2 key d2).2.db
          ("block:" ++ key)
        = some { value := .str "blocked",
                 expireAt := if 0 < d2 then some (mstime t2 + setMillis d2) else none }
    ∧ (0 < d2 → setMillis d2 = max 1 (d2 / 1000000))
    ∧ (RedisStrategy.IsBlocked t1 (RedisStrategy.Block t1 c key d1).2 key).1 = .ok true
    ∧ (RedisStrategy.IsBlocked t2
        (RedisStrategy.Block t2 (RedisStrategy.Block t1 c key d1).2 key d2).2 key).1
        = .ok true
    ∧ (∀ t : Time, (0 < d2 → t < t2 + setMillis d2 * Millisecond) →
        (RedisStrategy.IsBlocked t
          (RedisStrategy.Block t2 (RedisStrategy.Block t1 c key d1).2 key d2).2 key).1
          = .ok true)
    ∧ (∀ t : Time, 0 < d2 → mstime t2 + setMillis d2 < mstime t →
        (RedisStrategy.IsBlocked t
          (RedisStrategy.Block t2 (RedisStrategy.Block t1 c key d1).2 key d2).2 key).1
          = .ok false) := by
  have hB1 := RedisStrategy.Block_healthy t1 c key d1 hnet
  have hB0 := RedisStrategy.Block_healthy t2 c key d2 hnet
  -- the client after the first call
  have h1 : (RedisStrategy.Block t1 c key d1).1 = none := by rw [hB1]
  have hf1 : (RedisStrategy.Block t1 c key d1).2.faults = [] := by rw [hB1]; exact hnet
  have hdb1 : (RedisStrategy.Block t1 c key d1).2.db
      = c.db.SET t1 ("block:" ++ key) (.str "blocked") d1 := by rw [hB1]
  generalize (RedisStrategy.Block t1 c key d1).2 = c1 at hf1 hdb1 ⊢
  -- the client after the second call
  have hB2 := RedisStrategy.Block_healthy t2 c1 key d2 hf1
  have h2 : (RedisStrategy.Block t2 c1 key d2).1 = none := by rw [hB2]
  have hf2 : (RedisStrategy.Block t2 c1 key d2).2.faults = [] := by rw [hB2]; exact hf1
  have hdb2 : (RedisStrategy.Block t2 c1 key d2).2.db
      = c1.db.SET t2 ("block:" ++ key) (.str "blocked") d2 := by rw [hB2]
  generalize (RedisStrategy.Block t2 c1 key d2).2 = c2 at hf2 hdb2 ⊢
  obtain ⟨exp, hexp⟩ := Db.SET_eq_put c.db t1 ("block:" ++ key) (.str "blocked") d1
  have hdb : c2.db = c.db.SET t2 ("block:" ++ key) (.str "blocked") d2 := by
    rw [hdb2, hdb1, Db.SET_fresh _ t2 _ _ d2 hd2, Db.SET_fresh c.db t2 _ _ d2 hd2, hexp,
      Db.put_put]
  have hrec : c2.db ("block:" ++ key)
      = some { value := .str "blocked",
               expireAt := if 0 < d2 then some (mstime t2 + setMillis d2) else none } := by
    rw [hdb, Db.SET_fresh _ t2 _ _ d2 hd2]
    simp
  refine ⟨h1, h2, ?_, hrec, fun hpos => setMillis_eq d2 hpos, ?_, ?_, ?_, ?_⟩
  · rw [hdb, hB0]
  · rw [RedisStrategy.IsBlocked_healthy _ _ _ hf1, hdb1]
    exact congrArg (fun b => (Except.ok b : Except GoError Bool))
      (Db.SET_live c.db t1 ("block:" ++ key) (.str "blocked") d1)
  · rw [RedisStrategy.IsBlocked_healthy _ _ _ hf2, hdb2]
    exact congrArg (fun b => (Except.ok b : Except GoError Bool))
      (Db.SET_live _ t2 ("block:" ++ key) (.str "blocked") d2)
  · intro t ht
    rw [RedisStrategy.IsBlocked_healthy _ _ _ hf2]
    by_cases hpos : 0 < d2
    · have hl : mstime t ≤ mstime t2 + setMillis d2 := mstime_le_of_lt t2 t _ (ht hpos)
      simp [Db.find, hrec, hpos, Entry.live, hl]
    · simp [Db.find, hrec, hpos, Entry.live]
  · intro t hpos ht
    rw [RedisStrategy.IsBlocked_healthy _ _ _ hf2]
    have hl : ¬ mstime t ≤ mstime t2 + setMillis d2 := not_le.mpr ht
    simp [Db.find, hrec, hpos, Entry.live, hl]

/-- C12 (amended) at a block of ten seconds renewed for five seconds, three seconds in:
the record expires when the clock of the server reads 8000 ms. -/
theorem C12_block_twice_witness :
    (RedisStrategy.Block (3 * Second)
        (RedisStrategy.Block 0 Client.fresh "ip:1.2.3.4" (10 * Second)).2 "ip:1.2.3.4"
        (5 * Second)).2.db ("block:" ++ "ip:1.2.3.4")
      = some { value := .str "blocked", expireAt := some 8000 } :=
  (C12_block_twice Client.fresh "ip:1.2.3.4" (10 * Second) (5 * Second) 0 (3 * Second)
    rfl (by decide)).2.2.2.1

/-- C13, as the claim states it, fails.  The first check of a key on the Redis backend is
allowed, and it made two round trips to the store, not one: the `EXISTS` of `IsBlocked`,
then the pipeline of `Increment`. -/
theorem C13_counterexample :
    (Check RedisStrategy 0 Client.fresh "ip:1.2.3.4" { RPS := 5, BlockTime := 10 * Second }).1
        = .ok { Allowed := true, Remaining := 4, ResetTime := Second, Blocked := false }
    ∧ (Check RedisStrategy 0 Client.fresh "ip:1.2.3.4"
        { RPS := 5, BlockTime := 10 * Second }).2.sent
        = [[.EXISTS "block:ip:1.2.3.4"],
           [.INCR "rate:ip:1.2.3.4", .EXPIRE "rate:ip:1.2.3.4" Second]]
    ∧ (Check RedisStrategy 0 Client.fresh "ip:1.2.3.4"
        { RPS := 5, BlockTime := 10 * Second }).2.sent.length ≠ 1 := by
  decide

/-- C13, amended.  A `Check` that returns allowed=true performs exactly two store
operations: `IsBlocked`, which answers false, and then `Increment` of the counting key; it
makes no block call.  On the Redis backend these are exactly two round trips: the `EXISTS`
of the block key, and one pipeline carrying `INCR` and `EXPIRE` of the counting key. -/
theorem C13_hot_path_two_operations (now : Time) (c : Client) (key : String)
    (config : LimitConfig) (r : CheckResult)
    (hok : (Check RedisStrategy now c key config).1 = .ok r) (hallowed : r.Allowed = true) :
    (RedisStrategy.IsBlocked now c key).1 = .ok false
    ∧ (∃ p, (RedisStrategy.Increment now (RedisStrategy.IsBlocked now c key).2
        ("rate:" ++ key) Second).1 = .ok p)
    ∧ (Check RedisStrategy now c key config).2
        = (RedisStrategy.Increment now (RedisStrategy.IsBlocked now c key).2
            ("rate:" ++ key) Second).2
    ∧ (Check RedisStrategy now c key config).2.sent
        = c.sent ++ [[.EXISTS ("block:" ++ key)],
            [.INCR ("rate:" ++ key), .EXPIRE ("rate:" ++ key) Second]]
    ∧ (Check RedisStrategy now c key config).2.sent.length = c.sent.length + 2 := by
  obtain ⟨h1, h2, h3⟩ := Check_of_allowed RedisStrategy now c key config r hok hallowed
  have hsent : (Check RedisStrategy now c key config).2.sent
      = c.sent ++ [[.EXISTS ("block:" ++ key)],
          [.INCR ("rate:" ++ key), .EXPIRE ("rate:" ++ key) Second]] := by
    rw [h3]
    show (RedisStrategy.Increment now (RedisStrategy.IsBlocked now c key).2
      ("rate:" ++ key) Second).2.sent = _
    rw [RedisStrategy.Increment_sent, RedisStrategy.IsBlocked_sent]
    simp
  refine ⟨h1, h2, h3, hsent, ?_⟩
  rw [hsent]
  simp

/-- C13 (amended) at the second request of a window. -/
theorem C13_hot_path_two_operations_witness :
    (Check RedisStrategy 1
        (Check RedisStrategy 0 Client.fresh "k" { RPS := 3, BlockTime := 10 * Second }).2
        "k" { RPS := 3, BlockTime := 10 * Second }).2.sent.length
      = (Check RedisStrategy 0 Client.fresh "k"
          { RPS := 3, BlockTime := 10 * Second }).2.sent.length + 2 :=
  (C13_hot_path_two_operations 1
    (Check RedisStrategy 0 Client.fresh "k" { RPS := 3, BlockTime := 10 * Second }).2
    "k" { RPS := 3, BlockTime := 10 * Second }
    { Allowed := true, Remaining := 1, ResetTime := 1 + Second, Blocked := false }
    (by decide) rfl).2.2.2.2

end Claims

end RateLimiter
